import Mathlib

/-!
Shallow embedding of the OrderMatch matching engine (src/app/matcher.py and
src/app/models.py) and verification of the specification's claims about it.

Python floats are modelled as exact rationals (ℚ), Python `None`-able values as
`Option`, Python dictionaries as association lists with first-match lookup and
in-place update, and the shared mutable `Order` objects (aliased between
`active_orders` and the per-symbol resting lists) as an explicit heap
(`List Order`) addressed by allocation index, with every container holding heap
references.  Timestamps (`datetime.utcnow()` and the pydantic `created_at`
default) are modelled by an explicit `now : ℕ` argument threaded through the
operations.
-/

namespace OrderMatch

/-- Side of an order, from models.py `OrderSide`. -/
inductive OrderSide where
  | Buy
  | Sell
deriving DecidableEq

/-- Type of an order, from models.py `OrderType`. -/
inductive OrderType where
  | Limit
  | Market
  | Stop
deriving DecidableEq

/-- Status of an order, from models.py `OrderStatus`. -/
inductive OrderStatus where
  | Pending
  | Partial
  | Filled
  | Cancelled
  | Rejected
deriving DecidableEq

/-- An order, from models.py `Order`.  Quantities and prices are rationals,
optional fields are `Option`, timestamps are naturals. -/
structure Order where
  id : String
  symbol : String
  side : OrderSide
  order_type : OrderType
  quantity : ℚ
  price : Option ℚ
  stop_price : Option ℚ
  status : OrderStatus
  filled_quantity : ℚ
  average_price : Option ℚ
  created_at : ℕ
  updated_at : ℕ
  user_id : String
  client_order_id : String
deriving DecidableEq

/-- Modelled from the spec: one aggregated price level of the book (§3
"level = (price, aggregate remaining quantity)"); the `OrderBook` class is
absent from src/app/models.py (the file is truncated), only its use in
matcher.py remains.  matcher.py builds levels as `{"price": .., "quantity": ..}`
dictionaries. -/
structure Level where
  price : ℚ
  quantity : ℚ
deriving DecidableEq

/-- Modelled from the spec: per-symbol order book (§3 "two ordered sequences of
price levels: bids (descending by price) and asks (ascending by price) ... plus
a last-updated timestamp"); the class is absent from src/app/models.py.
matcher.py constructs it as `OrderBook(symbol=...)` and assigns `bids`, `asks`
and `last_updated`, so bids and asks default to empty. -/
structure OrderBook where
  symbol : String
  bids : List Level
  asks : List Level
  last_updated : ℕ
deriving DecidableEq

/-- Modelled from the spec: an executed trade (§3 "symbol, references to the two
matched order ids, buyer id, seller id, executed quantity, executed price,
timestamp"); the class is absent from src/app/models.py.  The price is kept
optional to mirror exactly the value matcher.py passes for it (a market order's
`price` field, which may be `None`). -/
structure Trade where
  symbol : String
  buy_order_id : String
  sell_order_id : String
  buyer_id : String
  seller_id : String
  quantity : ℚ
  price : Option ℚ
  timestamp : ℕ
deriving DecidableEq

/-- Modelled from the spec: per-symbol market statistics (§3 "last trade price,
best bid, best ask, 24h change percentage, timestamp"); the class is absent from
src/app/models.py.  matcher.py constructs it with keyword arguments
`last_price`, `bid`, `ask`, `volume_24h`, `change_24h`; `last_price` is kept
optional because matcher.py assigns a trade price (possibly `None`) to it. -/
structure MarketData where
  symbol : String
  last_price : Option ℚ
  bid : ℚ
  ask : ℚ
  volume_24h : ℚ
  change_24h : ℚ
  timestamp : ℕ
deriving DecidableEq

/-- Per-symbol resting collections, from matcher.py `orders_by_symbol`'s
`{"buy_orders": [], "sell_orders": []}` entries; the lists hold heap references
because the Python lists hold aliases of the stored `Order` objects. -/
structure SymbolOrders where
  buy_orders : List ℕ
  sell_orders : List ℕ
deriving DecidableEq

/-- Default entry produced by the `defaultdict` in matcher.py. -/
def SymbolOrders.empty : SymbolOrders := ⟨[], []⟩

/-- First-match lookup in an association list, modelling Python `dict` access
(`d.get(k)` / `k in d`). -/
def lookupKey {α : Type} : List (String × α) → String → Option α
  | [], _ => none
  | (k', v) :: rest, k => if k' = k then some v else lookupKey rest k

/-- Update-or-append in an association list, modelling Python `d[k] = v`
(an existing key keeps its position, a new key is appended). -/
def setKey {α : Type} : List (String × α) → String → α → List (String × α)
  | [], k, v => [(k, v)]
  | (k', v') :: rest, k, v =>
      if k' = k then (k, v) :: rest else (k', v') :: setKey rest k v

/-- Mutation of the order object stored at heap reference `r`; out-of-range
references (never produced by the engine) leave the heap unchanged. -/
def modifyRef (h : List Order) (r : ℕ) (f : Order → Order) : List Order :=
  match h.get? r with
  | some o => h.set r (f o)
  | none => h

/-- The whole engine state, from matcher.py `MatchingEngine.__init__`. -/
structure MatchingEngine where
  heap : List Order
  order_books : List (String × OrderBook)
  active_orders : List (String × ℕ)
  orders_by_symbol : List (String × SymbolOrders)
  trades : List Trade
  market_data : List (String × MarketData)
deriving DecidableEq

/-- Fresh engine, from `MatchingEngine.__init__`. -/
def MatchingEngine.init : MatchingEngine := ⟨[], [], [], [], [], []⟩

/-- Python truthiness of an optional float: `None` and `0.0` are falsy. -/
def truthyPrice : Option ℚ → Bool
  | none => false
  | some p => decide (p ≠ 0)

/-- Failure of the limit-price check `not order.price or order.price <= 0`:
true on `None` and on non-positive prices. -/
def limitPriceBad : Option ℚ → Bool
  | none => true
  | some p => decide (p ≤ 0)

/-- matcher.py `_validate_order`: quantity must be positive, and a limit order
must carry a truthy positive price (`not order.price or order.price <= 0`
rejects `None`, `0` and negatives). -/
def _validate_order (o : Order) : Bool :=
  if o.quantity ≤ 0 then false
  else if o.order_type = OrderType.Limit ∧ limitPriceBad o.price then false
  else true

/-- matcher.py `_price_matches`: a market order on either side always matches;
otherwise both prices must be truthy and buy price ≥ sell price. -/
def _price_matches (buy_order sell_order : Order) : Bool :=
  if buy_order.order_type = OrderType.Market ∨
      sell_order.order_type = OrderType.Market then true
  else if truthyPrice buy_order.price ∧ truthyPrice sell_order.price then
    decide (buy_order.price.getD 0 ≥ sell_order.price.getD 0)
  else false

/-- matcher.py `_update_order_after_trade`: add the fill, recompute the
volume-weighted average price, recompute the status, refresh `updated_at`.
(When an order already has an average price and the trade price is `None` the
source raises a `TypeError`; that point is unreachable for priced trades and is
modelled as keeping the old average.) -/
def _update_order_after_trade (o : Order) (trade_quantity : ℚ)
    (trade_price : Option ℚ) (now : ℕ) : Order :=
  let filled := o.filled_quantity + trade_quantity
  let avg : Option ℚ :=
    match o.average_price, trade_price with
    | none, tp => tp
    | some a, some tp =>
        some (((filled - trade_quantity) * a + trade_quantity * tp) / filled)
    | some a, none => some a
  let st := if o.filled_quantity + trade_quantity ≥ o.quantity
    then OrderStatus.Filled else OrderStatus.Partial
  { o with filled_quantity := filled, average_price := avg, status := st,
           updated_at := now }

/-- matcher.py `_execute_trade` on the orders at heap references `rb` (buy) and
`rs` (sell): trade quantity is the minimum of the two remaining quantities, no
trade if it is not positive; the price is the sell's price if the buy is a
market order, else the buy's price if the sell is a market order, else the
price of whichever order was created earlier (ties fall to the sell's price);
both orders are then updated in place. -/
def _execute_trade (h : List Order) (rb rs : ℕ) (now : ℕ) :
    Option (List Order × Trade) :=
  match h.get? rb, h.get? rs with
  | some buy_order, some sell_order =>
    let buy_remaining := buy_order.quantity - buy_order.filled_quantity
    let sell_remaining := sell_order.quantity - sell_order.filled_quantity
    let trade_quantity := min buy_remaining sell_remaining
    if trade_quantity ≤ 0 then none
    else
      let trade_price : Option ℚ :=
        if buy_order.order_type = OrderType.Market then sell_order.price
        else if sell_order.order_type = OrderType.Market then buy_order.price
        else if buy_order.created_at < sell_order.created_at then
          buy_order.price
        else sell_order.price
      let t : Trade :=
        { symbol := buy_order.symbol
          buy_order_id := buy_order.id
          sell_order_id := sell_order.id
          buyer_id := buy_order.user_id
          seller_id := sell_order.user_id
          quantity := trade_quantity
          price := trade_price
          timestamp := now }
      let h1 := modifyRef h rb
        (fun o => _update_order_after_trade o trade_quantity trade_price now)
      let h2 := modifyRef h1 rs
        (fun o => _update_order_after_trade o trade_quantity trade_price now)
      some (h2, t)
  | _, _ => none

/-- Sort key comparison for resting sells, from
`key=lambda x: (x.price or float('inf'), x.created_at)`: ascending price with
`None` largest, ties broken by ascending creation time. -/
def askLe (a b : Order) : Bool :=
  match a.price, b.price with
  | none, none => decide (a.created_at ≤ b.created_at)
  | none, some _ => false
  | some _, none => true
  | some pa, some pb =>
      decide (pa < pb) || (decide (pa = pb) && decide (a.created_at ≤ b.created_at))

/-- Sort key comparison for resting buys, from
`key=lambda x: (-(x.price or 0), x.created_at)`: descending price with `None`
as 0, ties broken by ascending creation time. -/
def bidLe (a b : Order) : Bool :=
  decide (b.price.getD 0 < a.price.getD 0) ||
    (decide (a.price.getD 0 = b.price.getD 0) &&
      decide (a.created_at ≤ b.created_at))

/-- Reference-level comparison used to sort candidate sells; dangling
references (never produced by the engine) sort first so that the comparison is
a total preorder. -/
def refLeSell (h : List Order) (r1 r2 : ℕ) : Bool :=
  match h.get? r1, h.get? r2 with
  | some a, some b => askLe a b
  | some _, none => false
  | none, _ => true

/-- Reference-level comparison used to sort candidate buys. -/
def refLeBuy (h : List Order) (r1 r2 : ℕ) : Bool :=
  match h.get? r1, h.get? r2 with
  | some a, some b => bidLe a b
  | some _, none => false
  | none, _ => true

/-- Candidate filter from the matching loops:
`[o for o in symbol_orders[...] if o.status == OrderStatus.PENDING]`. -/
def pendingRefs (h : List Order) (refs : List ℕ) : List ℕ :=
  refs.filter (fun r =>
    match h.get? r with
    | some o => decide (o.status = OrderStatus.Pending)
    | none => false)

/-- Loop body of matcher.py `_match_buy_order`: walk the sorted candidate
sells, stop as soon as the incoming buy's remaining quantity is ≤ 0, skip
price-incompatible candidates, execute a trade against each compatible one. -/
def matchBuyLoop (h : List Order) (acc : List Trade) (buyRef : ℕ)
    (cands : List ℕ) (now : ℕ) : List Order × List Trade :=
  match cands with
  | [] => (h, acc)
  | r :: rest =>
    match h.get? buyRef with
    | none => (h, acc)
    | some buy_order =>
      if buy_order.quantity - buy_order.filled_quantity ≤ 0 then (h, acc)
      else
        match h.get? r with
        | none => matchBuyLoop h acc buyRef rest now
        | some sell_order =>
          if _price_matches buy_order sell_order then
            match _execute_trade h buyRef r now with
            | some (h2, t) => matchBuyLoop h2 (acc ++ [t]) buyRef rest now
            | none => matchBuyLoop h acc buyRef rest now
          else matchBuyLoop h acc buyRef rest now

/-- Loop body of matcher.py `_match_sell_order`, symmetric to `matchBuyLoop`. -/
def matchSellLoop (h : List Order) (acc : List Trade) (sellRef : ℕ)
    (cands : List ℕ) (now : ℕ) : List Order × List Trade :=
  match cands with
  | [] => (h, acc)
  | r :: rest =>
    match h.get? sellRef with
    | none => (h, acc)
    | some sell_order =>
      if sell_order.quantity - sell_order.filled_quantity ≤ 0 then (h, acc)
      else
        match h.get? r with
        | none => matchSellLoop h acc sellRef rest now
        | some buy_order =>
          if _price_matches buy_order sell_order then
            match _execute_trade h r sellRef now with
            | some (h2, t) => matchSellLoop h2 (acc ++ [t]) sellRef rest now
            | none => matchSellLoop h acc sellRef rest now
          else matchSellLoop h acc sellRef rest now

/-- Python `defaultdict` read of `orders_by_symbol[symbol]`. -/
def getSymbolOrders (l : List (String × SymbolOrders)) (symbol : String) :
    SymbolOrders :=
  (lookupKey l symbol).getD SymbolOrders.empty

/-- matcher.py `_match_buy_order`: sorted pending sells, then the loop. -/
def _match_buy_order (s : MatchingEngine) (buyRef : ℕ) (symbol : String)
    (now : ℕ) : List Order × List Trade :=
  let so := getSymbolOrders s.orders_by_symbol symbol
  let cands := (pendingRefs s.heap so.sell_orders).mergeSort (refLeSell s.heap)
  matchBuyLoop s.heap [] buyRef cands now

/-- matcher.py `_match_sell_order`: sorted pending buys, then the loop. -/
def _match_sell_order (s : MatchingEngine) (sellRef : ℕ) (symbol : String)
    (now : ℕ) : List Order × List Trade :=
  let so := getSymbolOrders s.orders_by_symbol symbol
  let cands := (pendingRefs s.heap so.buy_orders).mergeSort (refLeBuy s.heap)
  matchSellLoop s.heap [] sellRef cands now

/-- Accumulation into a `defaultdict(float)` keyed by price: an existing key is
added to in place, a new key is appended (Python dictionaries preserve
insertion order). -/
def addLevel : List (ℚ × ℚ) → ℚ → ℚ → List (ℚ × ℚ)
  | [], p, q => [(p, q)]
  | (p', q') :: rest, p, q =>
      if p' = p then (p', q' + q) :: rest else (p', q') :: addLevel rest p q

/-- Level aggregation from `_update_orderbook_snapshot`: every resting order
with status `PENDING` and a truthy price contributes its remaining quantity to
the level at its exact price. -/
def collectLevels (h : List Order) (refs : List ℕ) : List (ℚ × ℚ) :=
  refs.foldl (fun acc r =>
    match h.get? r with
    | some o =>
        if o.status = OrderStatus.Pending ∧ truthyPrice o.price then
          addLevel acc (o.price.getD 0) (o.quantity - o.filled_quantity)
        else acc
    | none => acc) []

/-- Ascending lexicographic comparison on `(price, quantity)` pairs, from
`sorted(sell_levels.items())`. -/
def pairLeAsc (x y : ℚ × ℚ) : Bool :=
  decide (x.1 < y.1) || (decide (x.1 = y.1) && decide (x.2 ≤ y.2))

/-- Descending lexicographic comparison on `(price, quantity)` pairs, from
`sorted(buy_levels.items(), reverse=True)`. -/
def pairLeDesc (x y : ℚ × ℚ) : Bool :=
  decide (y.1 < x.1) || (decide (x.1 = y.1) && decide (y.2 ≤ x.2))

/-- matcher.py `_update_orderbook_snapshot`: recompute both sides' levels from
the symbol's resting lists and store them in the symbol's book.  The source
reads `self.order_books[symbol]`, which every caller has ensured exists; a
missing book (unreachable `KeyError`) leaves the state unchanged here. -/
def _update_orderbook_snapshot (s : MatchingEngine) (symbol : String)
    (now : ℕ) : MatchingEngine :=
  let so := getSymbolOrders s.orders_by_symbol symbol
  let buy_levels := collectLevels s.heap so.buy_orders
  let sell_levels := collectLevels s.heap so.sell_orders
  match lookupKey s.order_books symbol with
  | some ob =>
      let ob' : OrderBook :=
        { ob with
          bids := (buy_levels.mergeSort pairLeDesc).map (fun x => ⟨x.1, x.2⟩),
          asks := (sell_levels.mergeSort pairLeAsc).map (fun x => ⟨x.1, x.2⟩),
          last_updated := now }
      { s with order_books := setKey s.order_books symbol ob' }
  | none => s

/-- matcher.py `_add_to_orderbook`: append the order (by reference) to its
side's resting list and refresh the symbol's snapshot. -/
def _add_to_orderbook (s : MatchingEngine) (r : ℕ) (now : ℕ) :
    MatchingEngine :=
  match s.heap.get? r with
  | none => s
  | some o =>
    let so := getSymbolOrders s.orders_by_symbol o.symbol
    let so' :=
      match o.side with
      | OrderSide.Buy => { so with buy_orders := so.buy_orders ++ [r] }
      | OrderSide.Sell => { so with sell_orders := so.sell_orders ++ [r] }
    _update_orderbook_snapshot
      { s with orders_by_symbol := setKey s.orders_by_symbol o.symbol so' }
      o.symbol now

/-- Field updates performed on a symbol's market data by matcher.py
`_update_market_data` once the existing entry (or the freshly created one) is
in hand: set the last price to this trade's price, copy the current book tops
into bid/ask when those sides are non-empty, recompute the change percentage
against the previous last price when that price was positive, and refresh the
timestamp.  (When the previous last price is `None` the source raises a
`TypeError` on `None > 0`; that branch leaves the change unchanged here.) -/
def umdPure (md0 : MarketData) (ob : OrderBook) (t : Trade) (now : ℕ) :
    MarketData :=
  let old_price := md0.last_price
  let md1 := { md0 with last_price := t.price }
  let md2 :=
    match ob.bids with
    | l :: _ => { md1 with bid := l.price }
    | [] => md1
  let md3 :=
    match ob.asks with
    | l :: _ => { md2 with ask := l.price }
    | [] => md2
  let md4 :=
    match old_price with
    | some p =>
        if 0 < p then
          { md3 with change_24h := ((t.price.getD 0 - p) / p) * 100 }
        else md3
    | none => md3
  { md4 with timestamp := now }

/-- matcher.py `_update_market_data`: create the symbol's entry on first trade
(with the trade's price as last price and zeroed statistics), then apply the
field updates of `umdPure` and store the result.  The book read
`self.order_books[symbol]` is guaranteed by the callers; a missing book
(unreachable `KeyError`) leaves the state unchanged here. -/
def _update_market_data (s : MatchingEngine) (symbol : String) (t : Trade)
    (now : ℕ) : MatchingEngine :=
  let md0 : MarketData :=
    match lookupKey s.market_data symbol with
    | some md => md
    | none =>
        { symbol := symbol, last_price := t.price, bid := 0, ask := 0,
          volume_24h := 0, change_24h := 0, timestamp := 0 }
  match lookupKey s.order_books symbol with
  | none => s
  | some ob =>
    { s with market_data := setKey s.market_data symbol (umdPure md0 ob t now) }

/-- matcher.py `process_order`: validate (marking the order `Rejected` and
returning no trades on failure), create the symbol's book if absent, store the
order, match it, rest it if not fully filled, and update market data from the
last trade of the call.  Returns the new state, the trades of this call, and
the incoming order's final state (the caller holds the same object the engine
stored). -/
def process_order (s : MatchingEngine) (o : Order) (now : ℕ) :
    MatchingEngine × List Trade × Order :=
  if ¬ _validate_order o then
    (s, [], { o with status := OrderStatus.Rejected })
  else
    let s1 :=
      match lookupKey s.order_books o.symbol with
      | some _ => s
      | none =>
          let ob0 : OrderBook :=
            { symbol := o.symbol, bids := [], asks := [], last_updated := now }
          { s with order_books := setKey s.order_books o.symbol ob0 }
    let r := s1.heap.length
    let s2 := { s1 with heap := s1.heap ++ [o],
                        active_orders := setKey s1.active_orders o.id r }
    let matched :=
      match o.side with
      | OrderSide.Buy => _match_buy_order s2 r o.symbol now
      | OrderSide.Sell => _match_sell_order s2 r o.symbol now
    let s3 := { s2 with heap := matched.1, trades := s2.trades ++ matched.2 }
    let s4 :=
      match s3.heap.get? r with
      | some oc =>
          if oc.status ≠ OrderStatus.Filled then _add_to_orderbook s3 r now
          else s3
      | none => s3
    let s5 :=
      match matched.2.getLast? with
      | some t => _update_market_data s4 o.symbol t now
      | none => s4
    (s5, matched.2, (s5.heap.get? r).getD o)

/-- matcher.py `_remove_from_orderbook`: rebuild the order's side list without
any order carrying its id, then refresh the symbol's snapshot. -/
def _remove_from_orderbook (s : MatchingEngine) (o : Order) (now : ℕ) :
    MatchingEngine :=
  let so := getSymbolOrders s.orders_by_symbol o.symbol
  let keep := fun (refs : List ℕ) => refs.filter (fun r =>
    match s.heap.get? r with
    | some x => decide (x.id ≠ o.id)
    | none => true)
  let so' :=
    match o.side with
    | OrderSide.Buy => { so with buy_orders := keep so.buy_orders }
    | OrderSide.Sell => { so with sell_orders := keep so.sell_orders }
  _update_orderbook_snapshot
    { s with orders_by_symbol := setKey s.orders_by_symbol o.symbol so' }
    o.symbol now

/-- matcher.py `cancel_order`: fail (returning `false`, state untouched) when
the id is unknown, the requester is not the owner, or the status is not
`PENDING`/`PARTIAL`; otherwise mark the order `CANCELLED`, refresh its
`updated_at`, remove it from the resting set and refresh the book. -/
def cancel_order (s : MatchingEngine) (order_id user_id : String) (now : ℕ) :
    MatchingEngine × Bool :=
  match lookupKey s.active_orders order_id with
  | none => (s, false)
  | some r =>
    match s.heap.get? r with
    | none => (s, false)
    | some o =>
      if o.user_id ≠ user_id then (s, false)
      else if ¬ (o.status = OrderStatus.Pending ∨
          o.status = OrderStatus.Partial) then (s, false)
      else
        let h' := modifyRef s.heap r (fun x =>
          { x with status := OrderStatus.Cancelled, updated_at := now })
        let o' := { o with status := OrderStatus.Cancelled, updated_at := now }
        (_remove_from_orderbook { s with heap := h' } o' now, true)

/-- matcher.py `get_orderbook`. -/
def get_orderbook (s : MatchingEngine) (symbol : String) : Option OrderBook :=
  lookupKey s.order_books symbol

/-- matcher.py `get_market_data`. -/
def get_market_data (s : MatchingEngine) (symbol : String) :
    Option MarketData :=
  lookupKey s.market_data symbol

/-- matcher.py `get_order`: dictionary lookup of the stored order object. -/
def get_order (s : MatchingEngine) (order_id : String) : Option Order :=
  match lookupKey s.active_orders order_id with
  | some r => s.heap.get? r
  | none => none

/-- matcher.py `get_user_orders`: the stored orders (in insertion order) owned
by the user. -/
def get_user_orders (s : MatchingEngine) (user_id : String) : List Order :=
  (s.active_orders.filterMap (fun e => s.heap.get? e.2)).filter
    (fun o => decide (o.user_id = user_id))

/-! ## Definitions taken from the specification's wording
These follow the spec text (not the source) and exist to be compared with the
behaviour of the source-derived definitions above. -/

/-- Spec wording for the candidate set (§4.2): "all resting orders on side O
for the same symbol with status `Pending` or `Partial`". -/
def specEligibleRefs (h : List Order) (refs : List ℕ) : List ℕ :=
  refs.filter (fun r =>
    match h.get? r with
    | some o => decide (o.status = OrderStatus.Pending ∨
        o.status = OrderStatus.Partial)
    | none => false)

/-- Spec wording for a book level's quantity (§8 "Book/resting-set
consistency"): the sum of (requested − filled) over all `Pending`/`Partial`
resting orders at that exact price on that side. -/
def specLevelQuantity (h : List Order) (refs : List ℕ) (p : ℚ) : ℚ :=
  (refs.map (fun r =>
    match h.get? r with
    | some o =>
        if (o.status = OrderStatus.Pending ∨ o.status = OrderStatus.Partial) ∧
            o.price = some p then
          o.quantity - o.filled_quantity
        else 0
    | none => 0)).sum

/-- Spec wording for the market-data update (§4.7, applied "on every trade"
as claimed): fold the trades one at a time, each trade setting the last price
and recomputing the change percentage against the previous last price when
that price was positive.  Returns the final (last price, change). -/
def specPerTradeChange (last chg : ℚ) : List ℚ → ℚ × ℚ
  | [] => (last, chg)
  | p :: rest =>
      specPerTradeChange p (if 0 < last then ((p - last) / last) * 100 else chg)
        rest

/-! ## Aggregate views used to state the book-consistency results -/

/-- Contribution of the resting order at reference `r` to the book level at
price `p`, exactly as `_update_orderbook_snapshot` aggregates it: remaining
quantity when the order is `Pending` with a truthy price equal to `p`. -/
def levelContrib (h : List Order) (p : ℚ) (r : ℕ) : ℚ :=
  match h.get? r with
  | some o =>
      if o.status = OrderStatus.Pending ∧ truthyPrice o.price ∧
          o.price.getD 0 = p then
        o.quantity - o.filled_quantity
      else 0
  | none => 0

/-- Total remaining quantity that the snapshot aggregation assigns to price
`p` over a resting list. -/
def restingRemainingAt (h : List Order) (refs : List ℕ) (p : ℚ) : ℚ :=
  (refs.map (levelContrib h p)).sum

/-- Sum of the quantities of the price-`p` entries of an accumulated
`(price, quantity)` list. -/
def pairSumAt (p : ℚ) (lv : List (ℚ × ℚ)) : ℚ :=
  ((lv.filter (fun x => decide (x.1 = p))).map Prod.snd).sum

/-- Sum of the quantities of the price-`p` levels of a book side. -/
def levelSumAt (p : ℚ) (ls : List Level) : ℚ :=
  ((ls.filter (fun l => decide (l.price = p))).map Level.quantity).sum

/-- Resting list of the given side, as `_remove_from_orderbook` selects it. -/
def sideRefs (so : SymbolOrders) : OrderSide → List ℕ
  | OrderSide.Buy => so.buy_orders
  | OrderSide.Sell => so.sell_orders

/-! ## Reachable engine states
The engine's entry points are `process_order` and `cancel_order`
(src/app/routes.py).  Orders handed to `process_order` are freshly constructed
pydantic models with a freshly generated uuid id (routes.py `place_order`), so
a submission never reuses the id of an order already stored. -/

/-- The submitted order's id is new to the engine. -/
def submittedFresh (s : MatchingEngine) (o : Order) : Prop :=
  ∀ x ∈ s.heap, x.id ≠ o.id

/-- States reachable from a fresh engine through the two mutating entry
points. -/
inductive Reachable : MatchingEngine → Prop where
  | init : Reachable MatchingEngine.init
  | step : ∀ (s : MatchingEngine) (o : Order) (now : ℕ), Reachable s →
      submittedFresh s o → Reachable (process_order s o now).1
  | cancel : ∀ (s : MatchingEngine) (oid uid : String) (now : ℕ),
      Reachable s → Reachable (cancel_order s oid uid now).1

/-- The projection of an order that matching never changes: identity, price
and type.  Fills only touch `filled_quantity`, `average_price`, `status` and
`updated_at`. -/
def core (o : Order) : String × Option ℚ × OrderType :=
  (o.id, o.price, o.order_type)

/-- Stored order ids are pairwise distinct. -/
def UniqIds (h : List Order) : Prop := (h.map Order.id).Nodup

/-- The compatibility fact recorded by claim C9 for one trade against one
heap: any stored buy/sell legs of the trade that are both limit orders have
buy price ≥ sell price. -/
def TradeOK (h : List Order) (t : Trade) : Prop :=
  ∀ b ∈ h, b.id = t.buy_order_id → ∀ l ∈ h, l.id = t.sell_order_id →
    b.order_type = OrderType.Limit → l.order_type = OrderType.Limit →
    ∀ pb ps, b.price = some pb → l.price = some ps → ¬ pb < ps

/-- Every leg of every recorded trade is a stored order. -/
def TradeLegsStored (s : MatchingEngine) : Prop :=
  ∀ t ∈ s.trades, (∃ x ∈ s.heap, x.id = t.buy_order_id) ∧
    (∃ x ∈ s.heap, x.id = t.sell_order_id)

/-- The inductive invariant behind claim C9. -/
def EngineInv (s : MatchingEngine) : Prop :=
  UniqIds s.heap ∧ TradeLegsStored s ∧ ∀ t ∈ s.trades, TradeOK s.heap t

/-- Combined per-trade fact carried through the matching loop: the trade is
compatible (`TradeOK`) and both of its legs are stored. -/
def TradeGood (h : List Order) (t : Trade) : Prop :=
  TradeOK h t ∧ (∃ x ∈ h, x.id = t.buy_order_id) ∧
    (∃ x ∈ h, x.id = t.sell_order_id)

/-- Well-formedness the engine maintains: every reference in a resting list
points at a stored order.  (In the source this is the fact that the
`orders_by_symbol` lists hold aliases of objects already stored by
`process_order`.) -/
def RefsBounded (s : MatchingEngine) : Prop :=
  ∀ sym so, lookupKey s.orders_by_symbol sym = some so →
    (∀ r ∈ so.buy_orders, r < s.heap.length) ∧
    (∀ r ∈ so.sell_orders, r < s.heap.length)

/-! ## Concrete fixtures used by the counterexamples and witnesses -/

/-- Freshly submitted order as routes.py constructs one: status `Pending`,
nothing filled, no average price. -/
def mkOrder (id sym : String) (sd : OrderSide) (ot : OrderType) (q : ℚ)
    (p : Option ℚ) (t : ℕ) (uid : String) : Order :=
  { id := id, symbol := sym, side := sd, order_type := ot, quantity := q,
    price := p, stop_price := none, status := OrderStatus.Pending,
    filled_quantity := 0, average_price := none, created_at := t,
    updated_at := t, user_id := uid, client_order_id := id }

/-- Run A, step 1: resting sell, 10 units at 100. -/
def runA1 := process_order MatchingEngine.init
  (mkOrder "S1" "X" OrderSide.Sell OrderType.Limit 10 (some 100) 0 "u1") 0

/-- Run A, step 2: buy 4 at 100 — trades 4 units, leaving the sell `Partial`
with 6 units remaining. -/
def runA2 := process_order runA1.1
  (mkOrder "B1" "X" OrderSide.Buy OrderType.Limit 4 (some 100) 1 "u2") 1

/-- Order submitted in run A, step 3: buy 5 at 100, price-compatible with the
`Partial` resting sell. -/
def orderB2 : Order :=
  mkOrder "B2" "X" OrderSide.Buy OrderType.Limit 5 (some 100) 2 "u3"

/-- Run A, step 3. -/
def runA3 := process_order runA2.1 orderB2 2

/-- The single trade of run A, step 2: four units at the resting sell's
price 100 (the sell was created strictly earlier). -/
def tradeA2 : Trade :=
  { symbol := "X", buy_order_id := "B1", sell_order_id := "S1",
    buyer_id := "u2", seller_id := "u1", quantity := 4, price := some 100,
    timestamp := 1 }

/-- The incoming buy of run A, step 2, as its own definition. -/
def orderBuyB1 : Order :=
  mkOrder "B1" "X" OrderSide.Buy OrderType.Limit 4 (some 100) 1 "u2"

/-- Run B: three resting asks at prices 100, 100, 101 created at times
0 < 1 < 2, then an incoming buy for two units. -/
def runB1 := process_order MatchingEngine.init
  (mkOrder "A1" "Y" OrderSide.Sell OrderType.Limit 1 (some 100) 0 "u1") 0

/-- Run B, step 2. -/
def runB2 := process_order runB1.1
  (mkOrder "A2" "Y" OrderSide.Sell OrderType.Limit 1 (some 100) 1 "u1") 1

/-- Run B, step 3. -/
def runB3 := process_order runB2.1
  (mkOrder "A3" "Y" OrderSide.Sell OrderType.Limit 1 (some 101) 2 "u1") 2

/-- Run B, step 4: the incoming buy. -/
def runB4 := process_order runB3.1
  (mkOrder "BB" "Y" OrderSide.Buy OrderType.Limit 2 (some 102) 3 "u2") 3

/-- Run C, step 1. -/
def runC1 := process_order MatchingEngine.init
  (mkOrder "S1" "Z" OrderSide.Sell OrderType.Limit 1 (some 100) 0 "u1") 0

/-- Run C, step 2: first trade at 100 establishes the last price. -/
def runC2 := process_order runC1.1
  (mkOrder "B1" "Z" OrderSide.Buy OrderType.Limit 1 (some 100) 1 "u2") 1

/-- Run C, step 3. -/
def runC3 := process_order runC2.1
  (mkOrder "S2" "Z" OrderSide.Sell OrderType.Limit 1 (some 110) 2 "u1") 2

/-- Run C, step 4. -/
def runC4 := process_order runC3.1
  (mkOrder "S3" "Z" OrderSide.Sell OrderType.Limit 1 (some 120) 3 "u1") 3

/-- Run C, step 5: one call producing two trades, at 110 and at 120. -/
def runC5 := process_order runC4.1
  (mkOrder "B2" "Z" OrderSide.Buy OrderType.Limit 2 (some 120) 4 "u2") 4

/-- Stop order carrying no price at all. -/
def orderStop : Order := mkOrder "ST" "W" OrderSide.Sell OrderType.Stop 1 none 0 "u1"

/-- Run D: submitting the priceless stop order. -/
def runD1 := process_order MatchingEngine.init orderStop 0

/-- Market buy used by the C3 witness. -/
def buyM : Order := mkOrder "MB" "X" OrderSide.Buy OrderType.Market 1 none 1 "u2"

/-- Resting limit sell used by the C3 witness. -/
def sellL : Order := mkOrder "S1" "X" OrderSide.Sell OrderType.Limit 1 (some 100) 0 "u1"

/-- Heap holding the C3 witness pair. -/
def heapMB : List Order := [buyM, sellL]

/-- Trade produced by executing the C3 witness pair. -/
def tradeMB : Trade :=
  { symbol := "X", buy_order_id := "MB", sell_order_id := "S1",
    buyer_id := "u2", seller_id := "u1", quantity := 1, price := some 100,
    timestamp := 2 }

/-- State of the C3 witness buy after its fill. -/
def buyM2 : Order :=
  { buyM with
    status := OrderStatus.Filled, filled_quantity := 1,
    average_price := some 100, updated_at := 2 }

/-- State of the C3 witness sell after its fill. -/
def sellL2 : Order :=
  { sellL with
    status := OrderStatus.Filled, filled_quantity := 1,
    average_price := some 100, updated_at := 2 }

/-- Heap after executing the C3 witness pair. -/
def heapMB2 : List Order := [buyM2, sellL2]

/-! ## Order of the candidate lists -/

lemma askLe_trans (a b c : Order) (hab : askLe a b = true)
    (hbc : askLe b c = true) : askLe a c = true := by
  unfold askLe at *
  cases ha : a.price with
  | none =>
    cases hb : b.price with
    | none =>
      cases hc : c.price with
      | none =>
        simp only [ha, hb, hc, decide_eq_true_eq] at *
        exact le_trans hab hbc
      | some pc => simp [ha, hb, hc] at hbc
    | some pb => simp [ha, hb] at hab
  | some pa =>
    cases hb : b.price with
    | none =>
      cases hc : c.price with
      | none => simp [ha, hc]
      | some pc => simp [hb, hc] at hbc
    | some pb =>
      cases hc : c.price with
      | none => simp [ha, hc]
      | some pc =>
        simp only [ha, hb, hc, Bool.or_eq_true, Bool.and_eq_true,
          decide_eq_true_eq] at *
        rcases hab with h1 | ⟨h2, h3⟩ <;> rcases hbc with h4 | ⟨h5, h6⟩
        · exact Or.inl (lt_trans h1 h4)
        · exact Or.inl (h5 ▸ h1)
        · exact Or.inl (h2 ▸ h4)
        · exact Or.inr ⟨h2.trans h5, le_trans h3 h6⟩

lemma askLe_total (a b : Order) : (askLe a b || askLe b a) = true := by
  unfold askLe
  cases ha : a.price with
  | none =>
    cases hb : b.price with
    | none => simpa using Nat.le_total a.created_at b.created_at
    | some pb => simp
  | some pa =>
    cases hb : b.price with
    | none => simp
    | some pb =>
      rcases lt_trichotomy pa pb with h | h | h
      · simp [h]
      · subst h
        simpa using Nat.le_total a.created_at b.created_at
      · simp [h]

lemma bidLe_trans (a b c : Order) (hab : bidLe a b = true)
    (hbc : bidLe b c = true) : bidLe a c = true := by
  unfold bidLe at *
  simp only [Bool.or_eq_true, Bool.and_eq_true, decide_eq_true_eq] at *
  rcases hab with h1 | ⟨h2, h3⟩ <;> rcases hbc with h4 | ⟨h5, h6⟩
  · exact Or.inl (lt_trans h4 h1)
  · exact Or.inl (h5 ▸ h1)
  · exact Or.inl (h2 ▸ h4)
  · exact Or.inr ⟨h2.trans h5, le_trans h3 h6⟩

lemma bidLe_total (a b : Order) : (bidLe a b || bidLe b a) = true := by
  unfold bidLe
  rcases lt_trichotomy (a.price.getD 0) (b.price.getD 0) with h | h | h
  · simp [h]
  · rw [h]
    simpa using Nat.le_total a.created_at b.created_at
  · simp [h]

lemma refLeSell_trans (h : List Order) (r1 r2 r3 : ℕ)
    (h12 : refLeSell h r1 r2 = true) (h23 : refLeSell h r2 r3 = true) :
    refLeSell h r1 r3 = true := by
  unfold refLeSell at *
  cases e1 : h.get? r1 with
  | none => rfl
  | some a =>
    rw [e1] at h12
    cases e2 : h.get? r2 with
    | none => rw [e2] at h12; exact absurd h12 (by simp)
    | some b =>
      rw [e2] at h12
      rw [e2] at h23
      cases e3 : h.get? r3 with
      | none => rw [e3] at h23; exact absurd h23 (by simp)
      | some c =>
        rw [e3] at h23
        exact askLe_trans a b c h12 h23

lemma refLeSell_total (h : List Order) (r1 r2 : ℕ) :
    (refLeSell h r1 r2 || refLeSell h r2 r1) = true := by
  unfold refLeSell
  cases e1 : h.get? r1 with
  | none => simp
  | some a =>
    cases e2 : h.get? r2 with
    | none => simp
    | some b => simpa using askLe_total a b

lemma refLeBuy_trans (h : List Order) (r1 r2 r3 : ℕ)
    (h12 : refLeBuy h r1 r2 = true) (h23 : refLeBuy h r2 r3 = true) :
    refLeBuy h r1 r3 = true := by
  unfold refLeBuy at *
  cases e1 : h.get? r1 with
  | none => rfl
  | some a =>
    rw [e1] at h12
    cases e2 : h.get? r2 with
    | none => rw [e2] at h12; exact absurd h12 (by simp)
    | some b =>
      rw [e2] at h12
      rw [e2] at h23
      cases e3 : h.get? r3 with
      | none => rw [e3] at h23; exact absurd h23 (by simp)
      | some c =>
        rw [e3] at h23
        exact bidLe_trans a b c h12 h23

lemma refLeBuy_total (h : List Order) (r1 r2 : ℕ) :
    (refLeBuy h r1 r2 || refLeBuy h r2 r1) = true := by
  unfold refLeBuy
  cases e1 : h.get? r1 with
  | none => simp
  | some a =>
    cases e2 : h.get? r2 with
    | none => simp
    | some b => simpa using bidLe_total a b

/-! ## Claim theorems -/

/-- C1: the spec's candidate set for matching is the opposite side's resting
orders with status `Pending` or `Partial`; the source filters on `Pending`
alone.  Concretely: after a 10-unit sell at 100 is partially filled by 4
units, it has status `Partial` and remains the spec-eligible candidate for a
later compatible 5-unit buy at 100, but the source's candidate filter is
empty and that buy produces no trades. -/
theorem c1_partial_resting_not_matched :
    runA3.2.1 = [] ∧
    (runA2.1.heap.get? 0).map Order.status = some OrderStatus.Partial ∧
    specEligibleRefs runA2.1.heap
      (getSymbolOrders runA2.1.orders_by_symbol "X").sell_orders = [0] ∧
    pendingRefs runA2.1.heap
      (getSymbolOrders runA2.1.orders_by_symbol "X").sell_orders = [] ∧
    _price_matches orderB2 ((runA2.1.heap.get? 0).getD orderB2) = true := by
  norm_num +decide [runA3, runA2, runA1, orderB2, process_order,
    MatchingEngine.init, mkOrder, _validate_order, limitPriceBad, lookupKey,
    setKey, _match_buy_order, _match_sell_order, getSymbolOrders,
    SymbolOrders.empty, pendingRefs, List.mergeSort, refLeSell, refLeBuy,
    askLe, bidLe, matchBuyLoop, matchSellLoop, _price_matches, truthyPrice,
    _execute_trade, modifyRef, _update_order_after_trade, _add_to_orderbook,
    _update_orderbook_snapshot, collectLevels, addLevel, pairLeAsc,
    pairLeDesc, _update_market_data, umdPure, specEligibleRefs]

/-- C2: the spec says every book level equals the `Pending`/`Partial`
remaining-quantity aggregate at that price after any operation sequence.
Concretely: after the 4-unit fill of run A the book still shows the ask level
(100, 10) — the snapshot is not refreshed when the incoming order fully fills,
and even a refresh would drop the `Partial` order entirely — while the spec
aggregate at price 100 is 6. -/
theorem c2_book_level_mismatch :
    (lookupKey runA2.1.order_books "X").map OrderBook.asks =
      some [⟨100, 10⟩] ∧
    specLevelQuantity runA2.1.heap
      (getSymbolOrders runA2.1.orders_by_symbol "X").sell_orders 100 = 6 ∧
    (10 : ℚ) ≠ 6 := by
  norm_num +decide [runA2, runA1, process_order, MatchingEngine.init, mkOrder,
    _validate_order, limitPriceBad, lookupKey, setKey, _match_buy_order,
    _match_sell_order, getSymbolOrders, SymbolOrders.empty, pendingRefs,
    List.mergeSort, refLeSell, refLeBuy, askLe, bidLe, matchBuyLoop,
    matchSellLoop, _price_matches, truthyPrice, _execute_trade, modifyRef,
    _update_order_after_trade, _add_to_orderbook, _update_orderbook_snapshot,
    collectLevels, addLevel, pairLeAsc, pairLeDesc, _update_market_data, umdPure,
    specLevelQuantity]

/-- C3: the executed price is the sell's limit price when the buy is a market
order, the buy's limit price when the sell is a market order (with both sides
priceless when both are market orders, the two readings agree), and for two
limit orders the price of the strictly earlier-created order.  Market orders
carry no limit price, per the data model. -/
theorem c3_trade_price_rule (h : List Order) (rb rs now : ℕ)
    (buy_order sell_order : Order) (h2 : List Order) (t : Trade)
    (hb : h.get? rb = some buy_order) (hs : h.get? rs = some sell_order)
    (hbm : buy_order.order_type = OrderType.Market → buy_order.price = none)
    (hsm : sell_order.order_type = OrderType.Market → sell_order.price = none)
    (hexec : _execute_trade h rb rs now = some (h2, t)) :
    (buy_order.order_type = OrderType.Market → t.price = sell_order.price) ∧
    (sell_order.order_type = OrderType.Market → t.price = buy_order.price) ∧
    (buy_order.order_type = OrderType.Limit →
      sell_order.order_type = OrderType.Limit →
      (buy_order.created_at < sell_order.created_at →
        t.price = buy_order.price) ∧
      (sell_order.created_at < buy_order.created_at →
        t.price = sell_order.price)) := by
  unfold _execute_trade at hexec
  rw [hb, hs] at hexec
  by_cases hq : min (buy_order.quantity - buy_order.filled_quantity)
      (sell_order.quantity - sell_order.filled_quantity) ≤ 0
  · simp [hq] at hexec
  · simp only [hq, if_false, Option.some.injEq, Prod.mk.injEq] at hexec
    have ht : t.price =
        (if buy_order.order_type = OrderType.Market then sell_order.price
         else if sell_order.order_type = OrderType.Market then buy_order.price
         else if buy_order.created_at < sell_order.created_at then
           buy_order.price
         else sell_order.price) := by
      rw [← hexec.2]
    refine ⟨?_, ?_, ?_⟩
    · intro hbuy
      rw [ht, if_pos hbuy]
    · intro hsell
      by_cases hbuy : buy_order.order_type = OrderType.Market
      · rw [ht, if_pos hbuy, hsm hsell, hbm hbuy]
      · rw [ht, if_neg hbuy, if_pos hsell]
    · intro hbl hsl
      have hbuy : ¬ buy_order.order_type = OrderType.Market := by
        rw [hbl]; intro hc; cases hc
      have hsell : ¬ sell_order.order_type = OrderType.Market := by
        rw [hsl]; intro hc; cases hc
      constructor
      · intro hlt
        rw [ht, if_neg hbuy, if_neg hsell, if_pos hlt]
      · intro hlt
        have : ¬ buy_order.created_at < sell_order.created_at :=
          Nat.lt_asymm hlt
        rw [ht, if_neg hbuy, if_neg hsell, if_neg this]

/-- C3 witness: a market buy against a resting limit sell at 100 executes at
the sell's limit price. -/
theorem c3_witness :
    (buyM.order_type = OrderType.Market → tradeMB.price = sellL.price) ∧
    (sellL.order_type = OrderType.Market → tradeMB.price = buyM.price) ∧
    (buyM.order_type = OrderType.Limit → sellL.order_type = OrderType.Limit →
      (buyM.created_at < sellL.created_at → tradeMB.price = buyM.price) ∧
      (sellL.created_at < buyM.created_at → tradeMB.price = sellL.price)) :=
  c3_trade_price_rule heapMB 0 1 2 buyM sellL heapMB2 tradeMB
    (by norm_num [heapMB]) (by norm_num [heapMB])
    (fun _ => by norm_num [buyM, mkOrder])
    (fun hc => nomatch hc)
    (by norm_num +decide [_execute_trade, heapMB, heapMB2, tradeMB, buyM,
      buyM2, sellL, sellL2, mkOrder, modifyRef, _update_order_after_trade])

/-- C4: candidates are iterated in price-time priority — the sorted candidate
list is ordered by ascending price then ascending creation time for resting
sells, and by descending price then ascending creation time for resting buys —
and in the concrete [100, 100, 101] scenario the earlier 100-priced ask trades
first and the 101-priced ask is never touched. -/
theorem c4_price_time_priority :
    (∀ (h : List Order) (refs : List ℕ),
      List.Pairwise (fun a b => askLe a b = true)
        (((pendingRefs h refs).mergeSort (refLeSell h)).filterMap h.get?)) ∧
    (∀ (h : List Order) (refs : List ℕ),
      List.Pairwise (fun a b => bidLe a b = true)
        (((pendingRefs h refs).mergeSort (refLeBuy h)).filterMap h.get?)) ∧
    runB4.2.1.map (fun t => (t.sell_order_id, t.quantity, t.price)) =
      [("A1", 1, some 100), ("A2", 1, some 100)] ∧
    (runB4.1.heap.get? 2).map (fun o => (o.status, o.filled_quantity)) =
      some (OrderStatus.Pending, 0) := by
  refine ⟨?_, ?_, ?_⟩
  · intro h refs
    have hs := @List.sorted_mergeSort ℕ (refLeSell h)
      (refLeSell_trans h · · ·) (refLeSell_total h) (pendingRefs h refs)
    rw [List.pairwise_filterMap]
    refine hs.imp ?_
    intro r1 r2 hle b hb b' hb'
    rw [Option.mem_def] at hb hb'
    unfold refLeSell at hle
    rw [hb, hb'] at hle
    exact hle
  · intro h refs
    have hs := @List.sorted_mergeSort ℕ (refLeBuy h)
      (refLeBuy_trans h · · ·) (refLeBuy_total h) (pendingRefs h refs)
    rw [List.pairwise_filterMap]
    refine hs.imp ?_
    intro r1 r2 hle b hb b' hb'
    rw [Option.mem_def] at hb hb'
    unfold refLeBuy at hle
    rw [hb, hb'] at hle
    exact hle
  · constructor <;>
    norm_num +decide [runB4, runB3, runB2, runB1, process_order,
      MatchingEngine.init, mkOrder, _validate_order, limitPriceBad, lookupKey,
      setKey, _match_buy_order, _match_sell_order, getSymbolOrders,
      SymbolOrders.empty, pendingRefs, List.mergeSort, refLeSell, refLeBuy,
      askLe, bidLe, matchBuyLoop, matchSellLoop, _price_matches, truthyPrice,
      _execute_trade, modifyRef, _update_order_after_trade, _add_to_orderbook,
      _update_orderbook_snapshot, collectLevels, addLevel, pairLeAsc,
      pairLeDesc, _update_market_data, umdPure, umdPure]

/-- C5: the spec says stop orders without a positive price are rejected; the
source validates the price of limit orders only.  Concretely: a stop order
with no price and quantity 1 is accepted, stored, and left `Pending` rather
than `Rejected`. -/
theorem c5_stop_order_accepted :
    orderStop.order_type = OrderType.Stop ∧ orderStop.price = none ∧
    0 < orderStop.quantity ∧
    runD1.2.2.status = OrderStatus.Pending ∧
    OrderStatus.Pending ≠ OrderStatus.Rejected ∧
    (get_order runD1.1 "ST").isSome = true := by
  norm_num +decide [runD1, orderStop, process_order, MatchingEngine.init,
    mkOrder, _validate_order, limitPriceBad, lookupKey, setKey,
    _match_buy_order, _match_sell_order, getSymbolOrders, SymbolOrders.empty,
    pendingRefs, List.mergeSort, refLeSell, refLeBuy, askLe, bidLe,
    matchBuyLoop, matchSellLoop, _price_matches, truthyPrice, _execute_trade,
    modifyRef, _update_order_after_trade, _add_to_orderbook,
    _update_orderbook_snapshot, collectLevels, addLevel, pairLeAsc,
    pairLeDesc, _update_market_data, umdPure, get_order]

/-- C5 amended: an order with non-positive quantity, or a limit order with no
positive price, is marked `Rejected`; no trades are returned, no engine state
is mutated. -/
theorem c5_validation_rejects (s : MatchingEngine) (o : Order) (now : ℕ)
    (h : o.quantity ≤ 0 ∨
      (o.order_type = OrderType.Limit ∧ ∀ p, o.price = some p → p ≤ 0)) :
    process_order s o now = (s, [], { o with status := OrderStatus.Rejected })
    := by
  have hv : _validate_order o = false := by
    unfold _validate_order
    rcases h with hq | ⟨hl, hp⟩
    · rw [if_pos hq]
    · rcases le_or_lt o.quantity 0 with hq | hq
      · rw [if_pos hq]
      · rw [if_neg (not_le.mpr hq), if_pos]
        refine ⟨hl, ?_⟩
        unfold limitPriceBad
        cases he : o.price with
        | none => rfl
        | some p => simpa using hp p he
  unfold process_order
  rw [hv]
  simp

/-- C5 witness: a zero-quantity limit order is rejected without touching a
fresh engine. -/
theorem c5_witness :
    process_order MatchingEngine.init
      (mkOrder "V" "X" OrderSide.Buy OrderType.Limit 0 (some 1) 3 "u") 3 =
    (MatchingEngine.init, [],
      { mkOrder "V" "X" OrderSide.Buy OrderType.Limit 0 (some 1) 3 "u" with
        status := OrderStatus.Rejected }) :=
  c5_validation_rejects _ _ _ (Or.inl (by norm_num [mkOrder]))

/-! ## Heap update lemmas -/

lemma modifyRef_length (h : List Order) (r : ℕ) (f : Order → Order) :
    (modifyRef h r f).length = h.length := by
  unfold modifyRef
  cases h.get? r with
  | none => rfl
  | some o => exact List.length_set h r (f o)

lemma modifyRef_get_self (h : List Order) (r : ℕ) (f : Order → Order)
    (o : Order) (hr : h.get? r = some o) :
    (modifyRef h r f).get? r = some (f o) := by
  unfold modifyRef
  rw [hr, List.get?_set_eq, hr]
  rfl

lemma modifyRef_get_ne (h : List Order) (r r' : ℕ) (f : Order → Order)
    (hne : r ≠ r') : (modifyRef h r f).get? r' = h.get? r' := by
  unfold modifyRef
  cases h.get? r with
  | none => rfl
  | some o => exact List.get?_set_ne (f o) h hne

/-! ## Stage lemmas: which state components each internal step preserves -/

lemma snapshot_keeps (s : MatchingEngine) (sym : String) (now : ℕ) :
    (_update_orderbook_snapshot s sym now).heap = s.heap ∧
    (_update_orderbook_snapshot s sym now).active_orders = s.active_orders ∧
    (_update_orderbook_snapshot s sym now).trades = s.trades ∧
    (_update_orderbook_snapshot s sym now).market_data = s.market_data ∧
    (_update_orderbook_snapshot s sym now).orders_by_symbol =
      s.orders_by_symbol := by
  unfold _update_orderbook_snapshot
  cases lookupKey s.order_books sym with
  | none => exact ⟨rfl, rfl, rfl, rfl, rfl⟩
  | some ob => exact ⟨rfl, rfl, rfl, rfl, rfl⟩

lemma addBook_keeps (s : MatchingEngine) (r now : ℕ) :
    (_add_to_orderbook s r now).heap = s.heap ∧
    (_add_to_orderbook s r now).active_orders = s.active_orders ∧
    (_add_to_orderbook s r now).trades = s.trades ∧
    (_add_to_orderbook s r now).market_data = s.market_data := by
  unfold _add_to_orderbook
  cases s.heap.get? r with
  | none => exact ⟨rfl, rfl, rfl, rfl⟩
  | some o =>
    cases o.side with
    | Buy =>
      refine ⟨(snapshot_keeps _ _ _).1.trans rfl,
        (snapshot_keeps _ _ _).2.1.trans rfl,
        (snapshot_keeps _ _ _).2.2.1.trans rfl,
        (snapshot_keeps _ _ _).2.2.2.1.trans rfl⟩
    | Sell =>
      refine ⟨(snapshot_keeps _ _ _).1.trans rfl,
        (snapshot_keeps _ _ _).2.1.trans rfl,
        (snapshot_keeps _ _ _).2.2.1.trans rfl,
        (snapshot_keeps _ _ _).2.2.2.1.trans rfl⟩

lemma umd_keeps (s : MatchingEngine) (sym : String) (t : Trade) (now : ℕ) :
    (_update_market_data s sym t now).heap = s.heap ∧
    (_update_market_data s sym t now).active_orders = s.active_orders ∧
    (_update_market_data s sym t now).trades = s.trades ∧
    (_update_market_data s sym t now).order_books = s.order_books ∧
    (_update_market_data s sym t now).orders_by_symbol =
      s.orders_by_symbol := by
  unfold _update_market_data
  cases lookupKey s.order_books sym with
  | none => exact ⟨rfl, rfl, rfl, rfl, rfl⟩
  | some ob => exact ⟨rfl, rfl, rfl, rfl, rfl⟩

/-! ## Trade execution lemmas -/

lemma exec_none (h : List Order) (rb rs now : ℕ) (buy_order sell_order : Order)
    (hb : h.get? rb = some buy_order) (hs : h.get? rs = some sell_order)
    (hle : min (buy_order.quantity - buy_order.filled_quantity)
      (sell_order.quantity - sell_order.filled_quantity) ≤ 0) :
    _execute_trade h rb rs now = none := by
  unfold _execute_trade
  rw [hb, hs]
  simp only [if_pos hle]

lemma exec_some_inv (h : List Order) (rb rs now : ℕ) (h2 : List Order)
    (t : Trade) (hx : _execute_trade h rb rs now = some (h2, t)) :
    ∃ buy_order sell_order, h.get? rb = some buy_order ∧
      h.get? rs = some sell_order ∧
      0 < buy_order.quantity - buy_order.filled_quantity ∧
      0 < sell_order.quantity - sell_order.filled_quantity ∧
      t.quantity = min (buy_order.quantity - buy_order.filled_quantity)
        (sell_order.quantity - sell_order.filled_quantity) ∧
      t.buy_order_id = buy_order.id ∧ t.sell_order_id = sell_order.id ∧
      h2 = modifyRef (modifyRef h rb
          (fun o => _update_order_after_trade o t.quantity t.price now)) rs
        (fun o => _update_order_after_trade o t.quantity t.price now) := by
  unfold _execute_trade at hx
  cases hgb : h.get? rb with
  | none =>
    rw [hgb] at hx
    dsimp only [] at hx
    exact Option.noConfusion hx
  | some buy_order =>
    rw [hgb] at hx
    cases hgs : h.get? rs with
    | none =>
      rw [hgs] at hx
      dsimp only [] at hx
      exact Option.noConfusion hx
    | some sell_order =>
      rw [hgs] at hx
      dsimp only [] at hx
      by_cases hq : min (buy_order.quantity - buy_order.filled_quantity)
          (sell_order.quantity - sell_order.filled_quantity) ≤ 0
      · rw [if_pos hq] at hx; exact Option.noConfusion hx
      · rw [if_neg hq] at hx
        simp only [Option.some.injEq, Prod.mk.injEq] at hx
        obtain ⟨hh2, ht⟩ := hx
        subst ht
        push_neg at hq
        exact ⟨buy_order, sell_order, rfl, rfl,
          lt_of_lt_of_le hq (min_le_left _ _),
          lt_of_lt_of_le hq (min_le_right _ _), rfl, rfl, rfl, hh2.symm⟩

lemma update_order_quantity (o : Order) (tq : ℚ) (tp : Option ℚ) (now : ℕ) :
    (_update_order_after_trade o tq tp now).quantity = o.quantity := rfl

lemma update_order_filled (o : Order) (tq : ℚ) (tp : Option ℚ) (now : ℕ) :
    (_update_order_after_trade o tq tp now).filled_quantity =
      o.filled_quantity + tq := rfl

lemma exec_fill_bound (h : List Order) (rb rs now : ℕ) (h2 : List Order)
    (t : Trade) (hne : rb ≠ rs) (hx : _execute_trade h rb rs now = some (h2, t))
    (hb : ∀ x ∈ h, x.filled_quantity ≤ x.quantity) :
    ∀ x ∈ h2, x.filled_quantity ≤ x.quantity := by
  obtain ⟨buy_order, sell_order, hgb, hgs, hpb, hps, hq, -, -, hh2⟩ :=
    exec_some_inv h rb rs now h2 t hx
  intro x hxm
  obtain ⟨i, hi⟩ := List.mem_iff_get?.mp hxm
  subst hh2
  by_cases his : i = rs
  · subst his
    rw [modifyRef_get_self _ _ _ sell_order
      (by rw [modifyRef_get_ne _ _ _ _ hne]; exact hgs)] at hi
    cases hi
    rw [update_order_filled, update_order_quantity]
    have : t.quantity ≤ sell_order.quantity - sell_order.filled_quantity :=
      hq ▸ min_le_right _ _
    linarith
  · rw [modifyRef_get_ne _ _ _ _ (fun hc => his hc.symm)] at hi
    by_cases hib : i = rb
    · subst hib
      rw [modifyRef_get_self _ _ _ buy_order hgb] at hi
      cases hi
      rw [update_order_filled, update_order_quantity]
      have : t.quantity ≤ buy_order.quantity - buy_order.filled_quantity :=
        hq ▸ min_le_left _ _
      linarith
    · rw [modifyRef_get_ne _ _ _ _ (fun hc => hib hc.symm)] at hi
      exact hb x (List.mem_iff_get?.mpr ⟨i, hi⟩)

/-! ## Matching loop lemmas -/

lemma matchBuyLoop_fill_bound (cands : List ℕ) (h : List Order)
    (acc : List Trade) (bref now : ℕ) (hne : ∀ r ∈ cands, r ≠ bref)
    (hb : ∀ x ∈ h, x.filled_quantity ≤ x.quantity) :
    ∀ x ∈ (matchBuyLoop h acc bref cands now).1,
      x.filled_quantity ≤ x.quantity := by
  induction cands generalizing h acc with
  | nil => simpa [matchBuyLoop] using hb
  | cons r rest ih =>
    have hne' : ∀ r' ∈ rest, r' ≠ bref :=
      fun r' hr' => hne r' (List.mem_cons_of_mem _ hr')
    have hner : r ≠ bref := hne r (List.mem_cons_self _ _)
    rw [matchBuyLoop]
    cases hbref : h.get? bref with
    | none => simpa using hb
    | some buy_order =>
      dsimp only []
      by_cases hrem : buy_order.quantity - buy_order.filled_quantity ≤ 0
      · rw [if_pos hrem]; simpa using hb
      · rw [if_neg hrem]
        cases hr : h.get? r with
        | none => exact ih h acc hne' hb
        | some sell_order =>
          dsimp only []
          by_cases hpm : _price_matches buy_order sell_order = true
          · rw [if_pos hpm]
            cases hx : _execute_trade h bref r now with
            | none => exact ih h acc hne' hb
            | some pr =>
              obtain ⟨h2, t⟩ := pr
              exact ih h2 (acc ++ [t])
                hne' (exec_fill_bound h bref r now h2 t
                  (fun hc => hner hc.symm) hx hb)
          · rw [if_neg hpm]
            exact ih h acc hne' hb

lemma matchSellLoop_fill_bound (cands : List ℕ) (h : List Order)
    (acc : List Trade) (sref now : ℕ) (hne : ∀ r ∈ cands, r ≠ sref)
    (hb : ∀ x ∈ h, x.filled_quantity ≤ x.quantity) :
    ∀ x ∈ (matchSellLoop h acc sref cands now).1,
      x.filled_quantity ≤ x.quantity := by
  induction cands generalizing h acc with
  | nil => simpa [matchSellLoop] using hb
  | cons r rest ih =>
    have hne' : ∀ r' ∈ rest, r' ≠ sref :=
      fun r' hr' => hne r' (List.mem_cons_of_mem _ hr')
    have hner : r ≠ sref := hne r (List.mem_cons_self _ _)
    rw [matchSellLoop]
    cases hsref : h.get? sref with
    | none => simpa using hb
    | some sell_order =>
      dsimp only []
      by_cases hrem : sell_order.quantity - sell_order.filled_quantity ≤ 0
      · rw [if_pos hrem]; simpa using hb
      · rw [if_neg hrem]
        cases hr : h.get? r with
        | none => exact ih h acc hne' hb
        | some buy_order =>
          dsimp only []
          by_cases hpm : _price_matches buy_order sell_order = true
          · rw [if_pos hpm]
            cases hx : _execute_trade h r sref now with
            | none => exact ih h acc hne' hb
            | some pr =>
              obtain ⟨h2, t⟩ := pr
              exact ih h2 (acc ++ [t])
                hne' (exec_fill_bound h r sref now h2 t hner hx hb)
          · rw [if_neg hpm]
            exact ih h acc hne' hb

lemma remove_keeps (s : MatchingEngine) (o : Order) (now : ℕ) :
    (_remove_from_orderbook s o now).heap = s.heap ∧
    (_remove_from_orderbook s o now).active_orders = s.active_orders ∧
    (_remove_from_orderbook s o now).trades = s.trades ∧
    (_remove_from_orderbook s o now).market_data = s.market_data := by
  unfold _remove_from_orderbook
  cases o.side with
  | Buy =>
    exact ⟨(snapshot_keeps _ _ _).1.trans rfl,
      (snapshot_keeps _ _ _).2.1.trans rfl,
      (snapshot_keeps _ _ _).2.2.1.trans rfl,
      (snapshot_keeps _ _ _).2.2.2.1.trans rfl⟩
  | Sell =>
    exact ⟨(snapshot_keeps _ _ _).1.trans rfl,
      (snapshot_keeps _ _ _).2.1.trans rfl,
      (snapshot_keeps _ _ _).2.2.1.trans rfl,
      (snapshot_keeps _ _ _).2.2.2.1.trans rfl⟩

/-! ## Decomposition of a validated `process_order` call -/

lemma process_order_valid_decomp (s : MatchingEngine) (o : Order) (now : ℕ)
    (hv : _validate_order o = true) :
    ∃ cands : List ℕ, ∃ mt : List Order × List Trade,
      (∀ r ∈ cands, r ∈ (match o.side with
        | OrderSide.Buy =>
            (getSymbolOrders s.orders_by_symbol o.symbol).sell_orders
        | OrderSide.Sell =>
            (getSymbolOrders s.orders_by_symbol o.symbol).buy_orders)) ∧
      (∀ r ∈ cands, (s.heap ++ [o]).get? r ≠ none) ∧
      mt = (match o.side with
            | OrderSide.Buy =>
                matchBuyLoop (s.heap ++ [o]) [] s.heap.length cands now
            | OrderSide.Sell =>
                matchSellLoop (s.heap ++ [o]) [] s.heap.length cands now) ∧
      (process_order s o now).1.heap = mt.1 ∧
      (process_order s o now).1.trades = s.trades ++ mt.2 ∧
      (process_order s o now).2.1 = mt.2 ∧
      (process_order s o now).1.active_orders =
        setKey s.active_orders o.id s.heap.length := by
  unfold process_order
  rw [hv, if_neg (fun hc => hc rfl)]
  cases e : lookupKey s.order_books o.symbol with
  | none =>
    cases hside : o.side with
    | Buy =>
      refine ⟨(pendingRefs (s.heap ++ [o])
          (getSymbolOrders s.orders_by_symbol o.symbol).sell_orders).mergeSort
          (refLeSell (s.heap ++ [o])), _, ?_, ?_, rfl, ?_, ?_, ?_, ?_⟩
      · intro r hr
        exact List.mem_of_mem_filter (List.mem_mergeSort.mp hr)
      · intro r hr
        have hf := List.of_mem_filter (List.mem_mergeSort.mp hr)
        cases hg : (s.heap ++ [o]).get? r with
        | none => rw [hg] at hf; exact absurd hf (by simp)
        | some x => simp [hg]
      all_goals
        dsimp only [_match_buy_order, hside]
        repeat' split
      all_goals simp_all [addBook_keeps, umd_keeps]
    | Sell =>
      refine ⟨(pendingRefs (s.heap ++ [o])
          (getSymbolOrders s.orders_by_symbol o.symbol).buy_orders).mergeSort
          (refLeBuy (s.heap ++ [o])), _, ?_, ?_, rfl, ?_, ?_, ?_, ?_⟩
      · intro r hr
        exact List.mem_of_mem_filter (List.mem_mergeSort.mp hr)
      · intro r hr
        have hf := List.of_mem_filter (List.mem_mergeSort.mp hr)
        cases hg : (s.heap ++ [o]).get? r with
        | none => rw [hg] at hf; exact absurd hf (by simp)
        | some x => simp [hg]
      all_goals
        dsimp only [_match_sell_order, hside]
        repeat' split
      all_goals simp_all [addBook_keeps, umd_keeps]
  | some ob =>
    cases hside : o.side with
    | Buy =>
      refine ⟨(pendingRefs (s.heap ++ [o])
          (getSymbolOrders s.orders_by_symbol o.symbol).sell_orders).mergeSort
          (refLeSell (s.heap ++ [o])), _, ?_, ?_, rfl, ?_, ?_, ?_, ?_⟩
      · intro r hr
        exact List.mem_of_mem_filter (List.mem_mergeSort.mp hr)
      · intro r hr
        have hf := List.of_mem_filter (List.mem_mergeSort.mp hr)
        cases hg : (s.heap ++ [o]).get? r with
        | none => rw [hg] at hf; exact absurd hf (by simp)
        | some x => simp [hg]
      all_goals
        dsimp only [_match_buy_order, hside]
        repeat' split
      all_goals simp_all [addBook_keeps, umd_keeps]
    | Sell =>
      refine ⟨(pendingRefs (s.heap ++ [o])
          (getSymbolOrders s.orders_by_symbol o.symbol).buy_orders).mergeSort
          (refLeBuy (s.heap ++ [o])), _, ?_, ?_, rfl, ?_, ?_, ?_, ?_⟩
      · intro r hr
        exact List.mem_of_mem_filter (List.mem_mergeSort.mp hr)
      · intro r hr
        have hf := List.of_mem_filter (List.mem_mergeSort.mp hr)
        cases hg : (s.heap ++ [o]).get? r with
        | none => rw [hg] at hf; exact absurd hf (by simp)
        | some x => simp [hg]
      all_goals
        dsimp only [_match_sell_order, hside]
        repeat' split
      all_goals simp_all [addBook_keeps, umd_keeps]

/-- C6: a trade executes exactly min(buy remaining, sell remaining), only when
both remaining quantities are positive, and credits exactly that quantity to
both orders' filled quantities; across any engine operation the filled
quantity of every stored order stays at most its requested quantity. -/
theorem c6_conservation :
    (∀ (h : List Order) (rb rs now : ℕ) (buy_order sell_order : Order),
      h.get? rb = some buy_order → h.get? rs = some sell_order →
      min (buy_order.quantity - buy_order.filled_quantity)
          (sell_order.quantity - sell_order.filled_quantity) ≤ 0 →
      _execute_trade h rb rs now = none) ∧
    (∀ (h : List Order) (rb rs now : ℕ) (h2 : List Order) (t : Trade)
        (buy_order sell_order : Order),
      h.get? rb = some buy_order → h.get? rs = some sell_order → rb ≠ rs →
      _execute_trade h rb rs now = some (h2, t) →
      t.quantity = min (buy_order.quantity - buy_order.filled_quantity)
          (sell_order.quantity - sell_order.filled_quantity) ∧
      0 < buy_order.quantity - buy_order.filled_quantity ∧
      0 < sell_order.quantity - sell_order.filled_quantity ∧
      (∃ b2, h2.get? rb = some b2 ∧
        b2.filled_quantity = buy_order.filled_quantity + t.quantity ∧
        b2.quantity = buy_order.quantity) ∧
      (∃ s2, h2.get? rs = some s2 ∧
        s2.filled_quantity = sell_order.filled_quantity + t.quantity ∧
        s2.quantity = sell_order.quantity)) ∧
    (∀ (s : MatchingEngine) (o : Order) (now : ℕ),
      RefsBounded s → (∀ x ∈ s.heap, x.filled_quantity ≤ x.quantity) →
      o.filled_quantity ≤ o.quantity →
      ∀ x ∈ (process_order s o now).1.heap,
        x.filled_quantity ≤ x.quantity) ∧
    (∀ (s : MatchingEngine) (oid uid : String) (now : ℕ),
      (∀ x ∈ s.heap, x.filled_quantity ≤ x.quantity) →
      ∀ x ∈ (cancel_order s oid uid now).1.heap,
        x.filled_quantity ≤ x.quantity) := by
  refine ⟨?_, ?_, ?_, ?_⟩
  · intro h rb rs now buy_order sell_order hb hs hle
    exact exec_none h rb rs now buy_order sell_order hb hs hle
  · intro h rb rs now h2 t buy_order sell_order hb hs hne hx
    obtain ⟨b', s', hgb, hgs, hpb, hps, hq, -, -, hh2⟩ :=
      exec_some_inv h rb rs now h2 t hx
    rw [hb] at hgb
    rw [hs] at hgs
    cases hgb
    cases hgs
    refine ⟨hq, hpb, hps, ?_, ?_⟩
    · have hgetb : h2.get? rb = some
          (_update_order_after_trade buy_order t.quantity t.price now) := by
        rw [hh2, modifyRef_get_ne _ _ _ _ (fun hc => hne hc.symm)]
        exact modifyRef_get_self _ _ _ _ hb
      exact ⟨_, hgetb, update_order_filled _ _ _ _,
        update_order_quantity _ _ _ _⟩
    · have hgets : h2.get? rs = some
          (_update_order_after_trade sell_order t.quantity t.price now) := by
        rw [hh2]
        refine modifyRef_get_self _ _ _ _ ?_
        rw [modifyRef_get_ne _ _ _ _ hne]
        exact hs
      exact ⟨_, hgets, update_order_filled _ _ _ _,
        update_order_quantity _ _ _ _⟩
  · intro s o now hrb hbound ho
    cases hvb : _validate_order o with
    | false =>
      unfold process_order
      rw [hvb, if_pos (fun hc => Bool.noConfusion hc)]
      simpa using hbound
    | true =>
      obtain ⟨cands, mt, hmem, -, hmt, hheap, -, -, -⟩ :=
        process_order_valid_decomp s o now hvb
      rw [hheap]
      have hbound2 : ∀ x ∈ s.heap ++ [o],
          x.filled_quantity ≤ x.quantity := by
        intro x hx
        rcases List.mem_append.mp hx with hx | hx
        · exact hbound x hx
        · rw [List.mem_singleton.mp hx]; exact ho
      have hne : ∀ r ∈ cands, r ≠ s.heap.length := by
        intro r hr hcontra
        have hm := hmem r hr
        cases hso : lookupKey s.orders_by_symbol o.symbol with
        | none =>
          rw [show getSymbolOrders s.orders_by_symbol o.symbol =
              SymbolOrders.empty by
            unfold getSymbolOrders; rw [hso]; rfl] at hm
          cases ho2 : o.side <;> rw [ho2] at hm <;> exact absurd hm (by simp [SymbolOrders.empty])
        | some so' =>
          have hbnd := hrb o.symbol so' hso
          have hlt : r < s.heap.length := by
            rw [show getSymbolOrders s.orders_by_symbol o.symbol = so' by
              unfold getSymbolOrders; rw [hso]; rfl] at hm
            cases ho2 : o.side <;> rw [ho2] at hm
            · exact hbnd.2 r hm
            · exact hbnd.1 r hm
          omega
      rw [hmt]
      cases ho2 : o.side with
      | Buy =>
        exact matchBuyLoop_fill_bound cands (s.heap ++ [o]) []
          s.heap.length now hne hbound2
      | Sell =>
        exact matchSellLoop_fill_bound cands (s.heap ++ [o]) []
          s.heap.length now hne hbound2
  · intro s oid uid now hb
    unfold cancel_order
    cases hl : lookupKey s.active_orders oid with
    | none => simpa using hb
    | some r =>
      dsimp only []
      cases hg : s.heap.get? r with
      | none => simpa using hb
      | some o =>
        dsimp only []
        by_cases hu : o.user_id ≠ uid
        · rw [if_pos hu]; simpa using hb
        · rw [if_neg hu]
          by_cases hst : ¬(o.status = OrderStatus.Pending ∨
              o.status = OrderStatus.Partial)
          · rw [if_pos hst]; simpa using hb
          · rw [if_neg hst]
            dsimp only []
            intro x hx
            rw [(remove_keeps _ _ _).1] at hx
            obtain ⟨i, hi⟩ := List.mem_iff_get?.mp hx
            by_cases hir : i = r
            · subst hir
              rw [modifyRef_get_self _ _ _ o hg] at hi
              cases hi
              exact hb o (List.mem_iff_get?.mpr ⟨i, hg⟩)
            · rw [modifyRef_get_ne _ _ _ _ (fun hc => hir hc.symm)] at hi
              exact hb x (List.mem_iff_get?.mpr ⟨i, hi⟩)

/-! ## Association list lemmas -/

lemma lookupKey_setKey_self {α : Type} (l : List (String × α)) (k : String)
    (v : α) : lookupKey (setKey l k v) k = some v := by
  induction l with
  | nil => simp [setKey, lookupKey]
  | cons hd tl ih =>
    obtain ⟨k', v'⟩ := hd
    by_cases hk : k' = k
    · simp [setKey, lookupKey, hk]
    · simp only [setKey, lookupKey, if_neg hk]
      exact ih

lemma lookupKey_setKey_ne {α : Type} (l : List (String × α)) (k k' : String)
    (v : α) (hk : k ≠ k') : lookupKey (setKey l k v) k' = lookupKey l k' := by
  induction l with
  | nil => simp [setKey, lookupKey, hk]
  | cons hd tl ih =>
    obtain ⟨k0, v0⟩ := hd
    by_cases h0 : k0 = k
    · subst h0
      simp [setKey, lookupKey, hk]
    · simp only [setKey, lookupKey, if_neg h0]
      rw [ih]

lemma getSymbolOrders_setKey_self (l : List (String × SymbolOrders))
    (sym : String) (so : SymbolOrders) :
    getSymbolOrders (setKey l sym so) sym = so := by
  unfold getSymbolOrders
  rw [lookupKey_setKey_self]
  rfl

/-! ## Book aggregation lemmas -/

lemma pairSumAt_nil (p : ℚ) : pairSumAt p [] = 0 := rfl

lemma pairSumAt_cons (x : ℚ × ℚ) (l : List (ℚ × ℚ)) (p : ℚ) :
    pairSumAt p (x :: l) = (if x.1 = p then x.2 else 0) + pairSumAt p l := by
  unfold pairSumAt
  by_cases hp : x.1 = p
  · rw [List.filter_cons_of_pos (by simpa using hp), if_pos hp]
    simp
  · rw [List.filter_cons_of_neg (by simpa using hp), if_neg hp]
    simp

lemma pairSumAt_addLevel (lv : List (ℚ × ℚ)) (p p0 q : ℚ) :
    pairSumAt p (addLevel lv p0 q) =
      pairSumAt p lv + (if p0 = p then q else 0) := by
  induction lv with
  | nil =>
    show pairSumAt p [(p0, q)] = pairSumAt p [] + (if p0 = p then q else 0)
    rw [pairSumAt_cons, pairSumAt_nil]
    ring
  | cons hd tl ih =>
    obtain ⟨p', q'⟩ := hd
    dsimp only [addLevel]
    by_cases h0 : p' = p0
    · rw [if_pos h0, pairSumAt_cons, pairSumAt_cons]
      subst h0
      by_cases hp : p' = p
      · rw [if_pos hp, if_pos hp, if_pos hp]
        ring
      · rw [if_neg hp, if_neg hp, if_neg hp]
        ring
    · rw [if_neg h0, pairSumAt_cons, pairSumAt_cons, ih]
      ring

lemma collect_fold_sum (h : List Order) (p : ℚ) (refs : List ℕ)
    (acc : List (ℚ × ℚ)) :
    pairSumAt p (refs.foldl (fun acc r =>
      match h.get? r with
      | some o =>
          if o.status = OrderStatus.Pending ∧ truthyPrice o.price then
            addLevel acc (o.price.getD 0) (o.quantity - o.filled_quantity)
          else acc
      | none => acc) acc) =
    pairSumAt p acc + (refs.map (levelContrib h p)).sum := by
  induction refs generalizing acc with
  | nil => simp
  | cons r rest ih =>
    rw [List.foldl_cons, List.map_cons, List.sum_cons, ih]
    have hstep : pairSumAt p (match h.get? r with
        | some o =>
            if o.status = OrderStatus.Pending ∧ truthyPrice o.price then
              addLevel acc (o.price.getD 0) (o.quantity - o.filled_quantity)
            else acc
        | none => acc) = pairSumAt p acc + levelContrib h p r := by
      cases hg : h.get? r with
      | none =>
        dsimp only []
        unfold levelContrib
        rw [hg]
        dsimp only []
        ring
      | some o =>
        dsimp only []
        unfold levelContrib
        rw [hg]
        dsimp only []
        by_cases hc : o.status = OrderStatus.Pending ∧
            truthyPrice o.price = true
        · rw [if_pos hc, pairSumAt_addLevel]
          by_cases hp : o.price.getD 0 = p
          · rw [if_pos hp, if_pos ⟨hc.1, hc.2, hp⟩]
          · rw [if_neg hp, if_neg (fun hcon => hp hcon.2.2)]
        · rw [if_neg hc, if_neg (fun hcon => hc ⟨hcon.1, hcon.2.1⟩)]
          ring
    rw [hstep]
    ring

lemma levelSumAt_cons (x : Level) (l : List Level) (p : ℚ) :
    levelSumAt p (x :: l) =
      (if x.price = p then x.quantity else 0) + levelSumAt p l := by
  unfold levelSumAt
  by_cases hp : x.price = p
  · rw [List.filter_cons_of_pos (by simpa using hp), if_pos hp]
    simp
  · rw [List.filter_cons_of_neg (by simpa using hp), if_neg hp]
    simp

lemma levelSumAt_map_toLevel (l : List (ℚ × ℚ)) (p : ℚ) :
    levelSumAt p (l.map (fun x => (⟨x.1, x.2⟩ : Level))) = pairSumAt p l := by
  induction l with
  | nil => rfl
  | cons hd tl ih =>
    rw [List.map_cons, levelSumAt_cons, pairSumAt_cons, ih]

lemma pairSumAt_perm {l1 l2 : List (ℚ × ℚ)} (hp : l1.Perm l2) (p : ℚ) :
    pairSumAt p l1 = pairSumAt p l2 :=
  ((hp.filter _).map _).sum_eq

lemma snapshot_book_sums (s : MatchingEngine) (sym : String) (now : ℕ)
    (ob0 : OrderBook) (hob : lookupKey s.order_books sym = some ob0) :
    ∃ ob, lookupKey (_update_orderbook_snapshot s sym now).order_books sym =
      some ob ∧ ob.last_updated = now ∧
      (∀ p, levelSumAt p ob.asks = restingRemainingAt s.heap
        (getSymbolOrders s.orders_by_symbol sym).sell_orders p) ∧
      (∀ p, levelSumAt p ob.bids = restingRemainingAt s.heap
        (getSymbolOrders s.orders_by_symbol sym).buy_orders p) := by
  unfold _update_orderbook_snapshot
  rw [hob]
  dsimp only []
  refine ⟨_, lookupKey_setKey_self _ _ _, rfl, ?_, ?_⟩
  · intro p
    rw [levelSumAt_map_toLevel,
      pairSumAt_perm (List.mergeSort_perm _ _) p]
    unfold collectLevels restingRemainingAt
    rw [collect_fold_sum]
    simp [pairSumAt]
  · intro p
    rw [levelSumAt_map_toLevel,
      pairSumAt_perm (List.mergeSort_perm _ _) p]
    unfold collectLevels restingRemainingAt
    rw [collect_fold_sum]
    simp [pairSumAt]

/-- C6 witness: executing the market-buy/limit-sell pair trades exactly one
unit, the minimum of the two remaining quantities, and credits it to both
sides. -/
theorem c6_witness :
    tradeMB.quantity = min (buyM.quantity - buyM.filled_quantity)
      (sellL.quantity - sellL.filled_quantity) ∧
    0 < buyM.quantity - buyM.filled_quantity ∧
    0 < sellL.quantity - sellL.filled_quantity ∧
    (∃ b2, heapMB2.get? 0 = some b2 ∧
      b2.filled_quantity = buyM.filled_quantity + tradeMB.quantity ∧
      b2.quantity = buyM.quantity) ∧
    (∃ s2, heapMB2.get? 1 = some s2 ∧
      s2.filled_quantity = sellL.filled_quantity + tradeMB.quantity ∧
      s2.quantity = sellL.quantity) :=
  c6_conservation.2.1 heapMB 0 1 2 heapMB2 tradeMB buyM sellL
    (by norm_num [heapMB]) (by norm_num [heapMB]) (by norm_num)
    (by norm_num +decide [_execute_trade, heapMB, heapMB2, tradeMB, buyM,
      buyM2, sellL, sellL2, mkOrder, modifyRef, _update_order_after_trade])

/-- C7: `cancel_order` fails with `false` and changes nothing when the order
is unknown, owned by another user, or not `Pending`/`Partial`; on success it
returns `true`, marks the stored order `Cancelled` with `updated_at`
refreshed, removes every order with its id from its side's resting list, and
refreshes the symbol's book snapshot so that each side's level sums again
equal the aggregated remaining quantities of the resting set. -/
theorem c7_cancel_contract :
    (∀ (s : MatchingEngine) (oid uid : String) (now : ℕ),
      lookupKey s.active_orders oid = none →
      cancel_order s oid uid now = (s, false)) ∧
    (∀ (s : MatchingEngine) (oid uid : String) (now : ℕ) (r : ℕ) (o : Order),
      lookupKey s.active_orders oid = some r → s.heap.get? r = some o →
      o.user_id ≠ uid → cancel_order s oid uid now = (s, false)) ∧
    (∀ (s : MatchingEngine) (oid uid : String) (now : ℕ) (r : ℕ) (o : Order),
      lookupKey s.active_orders oid = some r → s.heap.get? r = some o →
      o.status ≠ OrderStatus.Pending → o.status ≠ OrderStatus.Partial →
      cancel_order s oid uid now = (s, false)) ∧
    (∀ (s : MatchingEngine) (oid uid : String) (now : ℕ) (r : ℕ) (o : Order),
      lookupKey s.active_orders oid = some r → s.heap.get? r = some o →
      o.user_id = uid →
      (o.status = OrderStatus.Pending ∨ o.status = OrderStatus.Partial) →
      (cancel_order s oid uid now).2 = true ∧
      get_order (cancel_order s oid uid now).1 oid =
        some { o with status := OrderStatus.Cancelled, updated_at := now } ∧
      (∀ r' ∈ sideRefs (getSymbolOrders
          (cancel_order s oid uid now).1.orders_by_symbol o.symbol) o.side,
        ∀ x, (cancel_order s oid uid now).1.heap.get? r' = some x →
          x.id ≠ o.id) ∧
      (∀ ob0, lookupKey s.order_books o.symbol = some ob0 →
        ∃ ob, lookupKey (cancel_order s oid uid now).1.order_books o.symbol =
            some ob ∧ ob.last_updated = now ∧
          (∀ p, levelSumAt p ob.asks =
            restingRemainingAt (cancel_order s oid uid now).1.heap
              (getSymbolOrders (cancel_order s oid uid now).1.orders_by_symbol
                o.symbol).sell_orders p) ∧
          (∀ p, levelSumAt p ob.bids =
            restingRemainingAt (cancel_order s oid uid now).1.heap
              (getSymbolOrders (cancel_order s oid uid now).1.orders_by_symbol
                o.symbol).buy_orders p))) := by
  have hred : ∀ (s : MatchingEngine) (oid uid : String) (now : ℕ) (r : ℕ)
      (o : Order), lookupKey s.active_orders oid = some r →
      s.heap.get? r = some o → o.user_id = uid →
      (o.status = OrderStatus.Pending ∨ o.status = OrderStatus.Partial) →
      cancel_order s oid uid now =
        (_remove_from_orderbook
          { s with heap := modifyRef s.heap r (fun x =>
              { x with status := OrderStatus.Cancelled, updated_at := now }) }
          { o with status := OrderStatus.Cancelled, updated_at := now }
          now, true) := by
    intro s oid uid now r o hl hg hu hst
    unfold cancel_order
    rw [hl]
    dsimp only []
    rw [hg]
    dsimp only []
    rw [if_neg (fun hc => hc hu), if_neg (fun hc => hc hst)]
  refine ⟨?_, ?_, ?_, ?_⟩
  · intro s oid uid now hl
    unfold cancel_order
    rw [hl]
  · intro s oid uid now r o hl hg hu
    unfold cancel_order
    rw [hl]
    dsimp only []
    rw [hg]
    dsimp only []
    rw [if_pos hu]
  · intro s oid uid now r o hl hg hp hpa
    unfold cancel_order
    rw [hl]
    dsimp only []
    rw [hg]
    dsimp only []
    by_cases hu : o.user_id ≠ uid
    · rw [if_pos hu]
    · rw [if_neg hu, if_pos (fun hc => hc.elim hp hpa)]
  · intro s oid uid now r o hl hg hu hst
    rw [hred s oid uid now r o hl hg hu hst]
    set h2 : List Order := modifyRef s.heap r (fun x =>
      { x with status := OrderStatus.Cancelled, updated_at := now }) with hh2
    set o2 : Order :=
      { o with status := OrderStatus.Cancelled, updated_at := now } with ho2
    cases hside : o.side with
    | Buy =>
      set soX : SymbolOrders :=
        { getSymbolOrders s.orders_by_symbol o.symbol with
          buy_orders :=
            (getSymbolOrders s.orders_by_symbol o.symbol).buy_orders.filter
              (fun rr =>
                match h2.get? rr with
                | some y => decide (y.id ≠ o.id)
                | none => true) } with hsoX
      set sFull : MatchingEngine :=
        { s with
          heap := h2,
          orders_by_symbol := setKey s.orders_by_symbol o.symbol soX }
        with hsf
      have hsnap : _remove_from_orderbook { s with heap := h2 } o2 now =
          _update_orderbook_snapshot sFull o.symbol now := by
        unfold _remove_from_orderbook
        rw [show o2.side = OrderSide.Buy from hside]
      rw [hsnap]
      have hk := snapshot_keeps sFull o.symbol now
      have hkh : (_update_orderbook_snapshot sFull o.symbol now).heap = h2 :=
        hk.1.trans (by rw [hsf])
      have hko : (_update_orderbook_snapshot sFull o.symbol
          now).orders_by_symbol = setKey s.orders_by_symbol o.symbol soX :=
        hk.2.2.2.2.trans (by rw [hsf])
      refine ⟨rfl, ?_, ?_, ?_⟩
      · unfold get_order
        rw [hk.2.1]
        rw [show sFull.active_orders = s.active_orders from by rw [hsf]]
        rw [hl]
        dsimp only []
        rw [hkh]
        exact modifyRef_get_self _ _ _ _ hg
      · intro r' hr' x hx
        rw [hkh] at hx
        rw [hko, getSymbolOrders_setKey_self] at hr'
        rw [hsoX] at hr'
        dsimp only [sideRefs] at hr'
        have hf := List.of_mem_filter hr'
        rw [hx] at hf
        exact of_decide_eq_true hf
      · intro ob0 hob
        have hob' : lookupKey sFull.order_books o.symbol = some ob0 := by
          rw [hsf]; exact hob
        obtain ⟨ob, hob2, hlu, hasks, hbids⟩ :=
          snapshot_book_sums sFull o.symbol now ob0 hob'
        refine ⟨ob, hob2, hlu, ?_, ?_⟩
        · intro p
          rw [hkh, hko]
          have := hasks p
          rw [show sFull.heap = h2 from by rw [hsf],
            show sFull.orders_by_symbol =
              setKey s.orders_by_symbol o.symbol soX from by rw [hsf]] at this
          exact this
        · intro p
          rw [hkh, hko]
          have := hbids p
          rw [show sFull.heap = h2 from by rw [hsf],
            show sFull.orders_by_symbol =
              setKey s.orders_by_symbol o.symbol soX from by rw [hsf]] at this
          exact this
    | Sell =>
      set soX : SymbolOrders :=
        { getSymbolOrders s.orders_by_symbol o.symbol with
          sell_orders :=
            (getSymbolOrders s.orders_by_symbol o.symbol).sell_orders.filter
              (fun rr =>
                match h2.get? rr with
                | some y => decide (y.id ≠ o.id)
                | none => true) } with hsoX
      set sFull : MatchingEngine :=
        { s with
          heap := h2,
          orders_by_symbol := setKey s.orders_by_symbol o.symbol soX }
        with hsf
      have hsnap : _remove_from_orderbook { s with heap := h2 } o2 now =
          _update_orderbook_snapshot sFull o.symbol now := by
        unfold _remove_from_orderbook
        rw [show o2.side = OrderSide.Sell from hside]
      rw [hsnap]
      have hk := snapshot_keeps sFull o.symbol now
      have hkh : (_update_orderbook_snapshot sFull o.symbol now).heap = h2 :=
        hk.1.trans (by rw [hsf])
      have hko : (_update_orderbook_snapshot sFull o.symbol
          now).orders_by_symbol = setKey s.orders_by_symbol o.symbol soX :=
        hk.2.2.2.2.trans (by rw [hsf])
      refine ⟨rfl, ?_, ?_, ?_⟩
      · unfold get_order
        rw [hk.2.1]
        rw [show sFull.active_orders = s.active_orders from by rw [hsf]]
        rw [hl]
        dsimp only []
        rw [hkh]
        exact modifyRef_get_self _ _ _ _ hg
      · intro r' hr' x hx
        rw [hkh] at hx
        rw [hko, getSymbolOrders_setKey_self] at hr'
        rw [hsoX] at hr'
        dsimp only [sideRefs] at hr'
        have hf := List.of_mem_filter hr'
        rw [hx] at hf
        exact of_decide_eq_true hf
      · intro ob0 hob
        have hob' : lookupKey sFull.order_books o.symbol = some ob0 := by
          rw [hsf]; exact hob
        obtain ⟨ob, hob2, hlu, hasks, hbids⟩ :=
          snapshot_book_sums sFull o.symbol now ob0 hob'
        refine ⟨ob, hob2, hlu, ?_, ?_⟩
        · intro p
          rw [hkh, hko]
          have := hasks p
          rw [show sFull.heap = h2 from by rw [hsf],
            show sFull.orders_by_symbol =
              setKey s.orders_by_symbol o.symbol soX from by rw [hsf]] at this
          exact this
        · intro p
          rw [hkh, hko]
          have := hbids p
          rw [show sFull.heap = h2 from by rw [hsf],
            show sFull.orders_by_symbol =
              setKey s.orders_by_symbol o.symbol soX from by rw [hsf]] at this
          exact this

/-- C7 witness: cancelling the resting buy of run A as its owner succeeds,
marks it `Cancelled`, removes it from the bid list and refreshes the book. -/
theorem c7_witness :
    (cancel_order runA3.1 "B2" "u3" 5).2 = true ∧
    get_order (cancel_order runA3.1 "B2" "u3" 5).1 "B2" =
      some { orderB2 with status := OrderStatus.Cancelled, updated_at := 5 } ∧
    (∀ r' ∈ sideRefs (getSymbolOrders
        (cancel_order runA3.1 "B2" "u3" 5).1.orders_by_symbol orderB2.symbol)
        orderB2.side,
      ∀ x, (cancel_order runA3.1 "B2" "u3" 5).1.heap.get? r' = some x →
        x.id ≠ orderB2.id) ∧
    (∀ ob0, lookupKey runA3.1.order_books orderB2.symbol = some ob0 →
      ∃ ob, lookupKey (cancel_order runA3.1 "B2" "u3" 5).1.order_books
          orderB2.symbol = some ob ∧ ob.last_updated = 5 ∧
        (∀ p, levelSumAt p ob.asks =
          restingRemainingAt (cancel_order runA3.1 "B2" "u3" 5).1.heap
            (getSymbolOrders
              (cancel_order runA3.1 "B2" "u3" 5).1.orders_by_symbol
              orderB2.symbol).sell_orders p) ∧
        (∀ p, levelSumAt p ob.bids =
          restingRemainingAt (cancel_order runA3.1 "B2" "u3" 5).1.heap
            (getSymbolOrders
              (cancel_order runA3.1 "B2" "u3" 5).1.orders_by_symbol
              orderB2.symbol).buy_orders p)) :=
  c7_cancel_contract.2.2.2 runA3.1 "B2" "u3" 5 2 orderB2
    (by norm_num +decide [runA3, runA2, runA1, orderB2, process_order,
      MatchingEngine.init, mkOrder, _validate_order, limitPriceBad, lookupKey,
      setKey, _match_buy_order, _match_sell_order, getSymbolOrders,
      SymbolOrders.empty, pendingRefs, List.mergeSort, refLeSell, refLeBuy,
      askLe, bidLe, matchBuyLoop, matchSellLoop, _price_matches, truthyPrice,
      _execute_trade, modifyRef, _update_order_after_trade, _add_to_orderbook,
      _update_orderbook_snapshot, collectLevels, addLevel, pairLeAsc,
      pairLeDesc, _update_market_data, umdPure, umdPure])
    (by norm_num +decide [runA3, runA2, runA1, orderB2, process_order,
      MatchingEngine.init, mkOrder, _validate_order, limitPriceBad, lookupKey,
      setKey, _match_buy_order, _match_sell_order, getSymbolOrders,
      SymbolOrders.empty, pendingRefs, List.mergeSort, refLeSell, refLeBuy,
      askLe, bidLe, matchBuyLoop, matchSellLoop, _price_matches, truthyPrice,
      _execute_trade, modifyRef, _update_order_after_trade, _add_to_orderbook,
      _update_orderbook_snapshot, collectLevels, addLevel, pairLeAsc,
      pairLeDesc, _update_market_data, umdPure, umdPure])
    rfl (Or.inl rfl)

/-! ## Core-stability of the heap under matching
Matching changes only fill state; identity, price and order type of every
stored order are stable. -/

lemma core_update (o : Order) (tq : ℚ) (tp : Option ℚ) (now : ℕ) :
    core (_update_order_after_trade o tq tp now) = core o := rfl

lemma modifyRef_map_core (h : List Order) (r : ℕ) (f : Order → Order)
    (hf : ∀ o, core (f o) = core o) (i : ℕ) :
    ((modifyRef h r f).get? i).map core = (h.get? i).map core := by
  by_cases hir : r = i
  · subst hir
    cases hg : h.get? r with
    | none =>
      unfold modifyRef
      rw [hg]
      dsimp only []
      rw [hg]
    | some o =>
      rw [modifyRef_get_self _ _ _ _ hg]
      show some (core (f o)) = some (core o)
      rw [hf]
  · rw [modifyRef_get_ne _ _ _ _ hir]

lemma exec_map_core (h : List Order) (rb rs now : ℕ) (h2 : List Order)
    (t : Trade) (hx : _execute_trade h rb rs now = some (h2, t)) (i : ℕ) :
    (h2.get? i).map core = (h.get? i).map core := by
  obtain ⟨b, sl, -, -, -, -, -, -, -, hh2⟩ := exec_some_inv h rb rs now h2 t hx
  rw [hh2]
  rw [modifyRef_map_core _ _ _ (fun o => core_update o _ _ _) i,
    modifyRef_map_core _ _ _ (fun o => core_update o _ _ _) i]

lemma matchBuyLoop_map_core (cands : List ℕ) (h : List Order)
    (acc : List Trade) (bref now : ℕ) (i : ℕ) :
    (((matchBuyLoop h acc bref cands now).1).get? i).map core =
      (h.get? i).map core := by
  induction cands generalizing h acc with
  | nil => rw [matchBuyLoop]
  | cons r rest ih =>
    rw [matchBuyLoop]
    cases hbref : h.get? bref with
    | none => rfl
    | some buy_order =>
      dsimp only []
      by_cases hrem : buy_order.quantity - buy_order.filled_quantity ≤ 0
      · rw [if_pos hrem]
      · rw [if_neg hrem]
        cases hr : h.get? r with
        | none => exact ih h acc
        | some sell_order =>
          dsimp only []
          by_cases hpm : _price_matches buy_order sell_order = true
          · rw [if_pos hpm]
            cases hx : _execute_trade h bref r now with
            | none => exact ih h acc
            | some pr =>
              obtain ⟨h2, t⟩ := pr
              rw [ih h2 (acc ++ [t])]
              exact exec_map_core h bref r now h2 t hx i
          · rw [if_neg hpm]
            exact ih h acc

lemma matchSellLoop_map_core (cands : List ℕ) (h : List Order)
    (acc : List Trade) (sref now : ℕ) (i : ℕ) :
    (((matchSellLoop h acc sref cands now).1).get? i).map core =
      (h.get? i).map core := by
  induction cands generalizing h acc with
  | nil => rw [matchSellLoop]
  | cons r rest ih =>
    rw [matchSellLoop]
    cases hsref : h.get? sref with
    | none => rfl
    | some sell_order =>
      dsimp only []
      by_cases hrem : sell_order.quantity - sell_order.filled_quantity ≤ 0
      · rw [if_pos hrem]
      · rw [if_neg hrem]
        cases hr : h.get? r with
        | none => exact ih h acc
        | some buy_order =>
          dsimp only []
          by_cases hpm : _price_matches buy_order sell_order = true
          · rw [if_pos hpm]
            cases hx : _execute_trade h r sref now with
            | none => exact ih h acc
            | some pr =>
              obtain ⟨h2, t⟩ := pr
              rw [ih h2 (acc ++ [t])]
              exact exec_map_core h r sref now h2 t hx i
          · rw [if_neg hpm]
            exact ih h acc

/-- C10: a rejected order is never stored — the engine state is returned
untouched, so `get_order` and `get_user_orders` are unaffected — while every
accepted order is stored under its id, and neither `process_order` nor
`cancel_order` ever removes a stored order. -/
theorem c10_order_store :
    (∀ (s : MatchingEngine) (o : Order) (now : ℕ),
      _validate_order o = false →
      process_order s o now =
        (s, [], { o with status := OrderStatus.Rejected })) ∧
    (∀ (s : MatchingEngine) (o : Order) (now : ℕ),
      _validate_order o = true →
      (get_order (process_order s o now).1 o.id).isSome = true) ∧
    (∀ (s : MatchingEngine) (o : Order) (now : ℕ) (oid : String),
      (get_order s oid).isSome = true →
      (get_order (process_order s o now).1 oid).isSome = true) ∧
    (∀ (s : MatchingEngine) (oid uid : String) (now : ℕ) (qid : String),
      (get_order s qid).isSome = true →
      (get_order (cancel_order s oid uid now).1 qid).isSome = true) ∧
    (∀ (s : MatchingEngine) (o : Order) (now : ℕ) (uid : String),
      _validate_order o = false →
      get_user_orders (process_order s o now).1 uid =
        get_user_orders s uid) := by
  have hrej : ∀ (s : MatchingEngine) (o : Order) (now : ℕ),
      _validate_order o = false →
      process_order s o now =
        (s, [], { o with status := OrderStatus.Rejected }) := by
    intro s o now hv
    unfold process_order
    rw [hv, if_pos (fun hc => Bool.noConfusion hc)]
  have hheapSome : ∀ (s : MatchingEngine) (o : Order) (now : ℕ)
      (cands : List ℕ) (i : ℕ),
      (((s.heap ++ [o]).get? i).isSome = true) →
      (∀ side : OrderSide, ((match side with
        | OrderSide.Buy =>
            matchBuyLoop (s.heap ++ [o]) [] s.heap.length cands now
        | OrderSide.Sell =>
            matchSellLoop (s.heap ++ [o]) [] s.heap.length cands
              now).1.get? i).isSome = true) := by
    intro s o now cands i hi side
    cases side with
    | Buy =>
      have hmc := matchBuyLoop_map_core cands (s.heap ++ [o]) []
        s.heap.length now i
      cases hg : (matchBuyLoop (s.heap ++ [o]) [] s.heap.length cands
          now).1.get? i with
      | none =>
        rw [hg] at hmc
        cases hg2 : (s.heap ++ [o]).get? i with
        | none => rw [hg2] at hi; exact absurd hi (by simp)
        | some x => rw [hg2] at hmc; exact absurd hmc (by simp)
      | some x => simp
    | Sell =>
      have hmc := matchSellLoop_map_core cands (s.heap ++ [o]) []
        s.heap.length now i
      cases hg : (matchSellLoop (s.heap ++ [o]) [] s.heap.length cands
          now).1.get? i with
      | none =>
        rw [hg] at hmc
        cases hg2 : (s.heap ++ [o]).get? i with
        | none => rw [hg2] at hi; exact absurd hi (by simp)
        | some x => rw [hg2] at hmc; exact absurd hmc (by simp)
      | some x => simp
  refine ⟨hrej, ?_, ?_, ?_, ?_⟩
  · intro s o now hv
    obtain ⟨cands, mt, -, -, hmt, hheap, -, -, hact⟩ :=
      process_order_valid_decomp s o now hv
    unfold get_order
    rw [hact, lookupKey_setKey_self]
    dsimp only []
    rw [hheap, hmt]
    exact hheapSome s o now cands s.heap.length
      (by rw [List.get?_concat_length]; rfl) o.side
  · intro s o now oid hq
    cases hvb : _validate_order o with
    | false =>
      rw [hrej s o now hvb]
      exact hq
    | true =>
      obtain ⟨cands, mt, -, -, hmt, hheap, -, -, hact⟩ :=
        process_order_valid_decomp s o now hvb
      unfold get_order at hq ⊢
      cases hlq : lookupKey s.active_orders oid with
      | none => rw [hlq] at hq; exact absurd hq (by simp)
      | some r0 =>
        rw [hlq] at hq
        dsimp only [] at hq
        cases hx : s.heap.get? r0 with
        | none => rw [hx] at hq; exact absurd hq (by simp)
        | some x =>
          have hr0 : r0 < s.heap.length := by
            obtain ⟨hlt, -⟩ := List.get?_eq_some.mp hx
            exact hlt
          rw [hact]
          by_cases hid : o.id = oid
          · rw [hid, lookupKey_setKey_self]
            dsimp only []
            rw [hheap, hmt]
            exact hheapSome s o now cands s.heap.length
              (by rw [List.get?_concat_length]; rfl) o.side
          · rw [lookupKey_setKey_ne _ _ _ _ hid, hlq]
            dsimp only []
            rw [hheap, hmt]
            refine hheapSome s o now cands r0 ?_ o.side
            rw [List.get?_append hr0, hx]
            rfl
  · intro s oid uid now qid hq
    unfold cancel_order
    cases hl : lookupKey s.active_orders oid with
    | none => exact hq
    | some r =>
      dsimp only []
      cases hg : s.heap.get? r with
      | none => exact hq
      | some o =>
        dsimp only []
        by_cases hu : o.user_id ≠ uid
        · rw [if_pos hu]; exact hq
        · rw [if_neg hu]
          by_cases hst : ¬(o.status = OrderStatus.Pending ∨
              o.status = OrderStatus.Partial)
          · rw [if_pos hst]; exact hq
          · rw [if_neg hst]
            dsimp only []
            unfold get_order at hq ⊢
            cases hlq : lookupKey s.active_orders qid with
            | none => rw [hlq] at hq; exact absurd hq (by simp)
            | some r0 =>
              rw [hlq] at hq
              dsimp only [] at hq
              rw [(remove_keeps _ _ _).2.1]
              dsimp only []
              rw [hlq]
              dsimp only []
              rw [(remove_keeps _ _ _).1]
              dsimp only []
              have hmc := modifyRef_map_core s.heap r (fun x =>
                { x with status := OrderStatus.Cancelled, updated_at := now })
                (fun x => rfl) r0
              cases hg2 : (modifyRef s.heap r (fun x =>
                  { x with
                    status := OrderStatus.Cancelled,
                    updated_at := now })).get? r0 with
              | none =>
                rw [hg2] at hmc
                cases hg3 : s.heap.get? r0 with
                | none => rw [hg3] at hq; exact absurd hq (by simp)
                | some x => rw [hg3] at hmc; exact absurd hmc (by simp)
              | some x => rfl
  · intro s o now uid hv
    rw [hrej s o now hv]

/-- C10 witness: the accepted stop order of run D is retrievable by id. -/
theorem c10_witness :
    (get_order (process_order MatchingEngine.init orderStop 0).1
      orderStop.id).isSome = true :=
  c10_order_store.2.1 MatchingEngine.init orderStop 0
    (by norm_num +decide [_validate_order, limitPriceBad, orderStop, mkOrder])

/-! ## Market-data stage lemmas -/

lemma snapshot_books_isSome (s : MatchingEngine) (sym : String) (now : ℕ)
    (sym' : String)
    (h : (lookupKey s.order_books sym').isSome = true) :
    (lookupKey (_update_orderbook_snapshot s sym now).order_books
      sym').isSome = true := by
  unfold _update_orderbook_snapshot
  cases hob : lookupKey s.order_books sym with
  | none => exact h
  | some ob =>
    dsimp only []
    by_cases hsym : sym = sym'
    · subst hsym
      rw [lookupKey_setKey_self]
      rfl
    · rw [lookupKey_setKey_ne _ _ _ _ hsym]
      exact h

lemma addBook_books_isSome (s : MatchingEngine) (r now : ℕ) (sym' : String)
    (h : (lookupKey s.order_books sym').isSome = true) :
    (lookupKey (_add_to_orderbook s r now).order_books sym').isSome = true := by
  unfold _add_to_orderbook
  cases hg : s.heap.get? r with
  | none => exact h
  | some o =>
    cases o.side with
    | Buy => exact snapshot_books_isSome _ _ _ _ h
    | Sell => exact snapshot_books_isSome _ _ _ _ h

lemma process_order_umd_decomp (s : MatchingEngine) (o : Order) (now : ℕ)
    (hv : _validate_order o = true) :
    ∃ s4 : MatchingEngine,
      s4.market_data = s.market_data ∧
      (lookupKey s4.order_books o.symbol).isSome = true ∧
      (process_order s o now).1 =
        (match (process_order s o now).2.1.getLast? with
         | some t => _update_market_data s4 o.symbol t now
         | none => s4) := by
  unfold process_order
  rw [hv, if_neg (fun hc => hc rfl)]
  cases e : lookupKey s.order_books o.symbol with
  | none =>
    dsimp only []
    refine ⟨_, ?_, ?_, rfl⟩
    · repeat' split
      all_goals simp [addBook_keeps]
    · repeat' split
      all_goals
        first
        | (refine addBook_books_isSome _ _ _ _ ?_
           rw [lookupKey_setKey_self]
           rfl)
        | (rw [lookupKey_setKey_self]; rfl)
  | some ob =>
    dsimp only []
    refine ⟨_, ?_, ?_, rfl⟩
    · repeat' split
      all_goals simp [addBook_keeps]
    · repeat' split
      all_goals
        first
        | (refine addBook_books_isSome _ _ _ _ ?_
           rw [e]
           rfl)
        | (rw [e]; rfl)

lemma umdPure_eq (md0 : MarketData) (ob : OrderBook) (t : Trade) (now : ℕ) :
    umdPure md0 ob t now =
      { symbol := md0.symbol,
        last_price := t.price,
        bid := (match ob.bids with | l :: _ => l.price | [] => md0.bid),
        ask := (match ob.asks with | l :: _ => l.price | [] => md0.ask),
        volume_24h := md0.volume_24h,
        change_24h :=
          (match md0.last_price with
           | some p =>
               if 0 < p then ((t.price.getD 0 - p) / p) * 100
               else md0.change_24h
           | none => md0.change_24h),
        timestamp := now } := by
  unfold umdPure
  cases hb : ob.bids <;> cases ha : ob.asks <;> cases hp : md0.last_price
  all_goals dsimp only []
  all_goals rename_i p
  all_goals by_cases h0 : 0 < p
  all_goals simp only [h0, if_true, if_false]

lemma umdPure_last (md0 : MarketData) (ob : OrderBook) (t : Trade) (now : ℕ) :
    (umdPure md0 ob t now).last_price = t.price := by
  rw [umdPure_eq]

lemma umdPure_timestamp (md0 : MarketData) (ob : OrderBook) (t : Trade)
    (now : ℕ) : (umdPure md0 ob t now).timestamp = now := by
  rw [umdPure_eq]

lemma umdPure_bid_cons (md0 : MarketData) (ob : OrderBook) (t : Trade)
    (now : ℕ) (l : Level) (tl : List Level) (h : ob.bids = l :: tl) :
    (umdPure md0 ob t now).bid = l.price := by
  rw [umdPure_eq]
  dsimp only []
  rw [h]

lemma umdPure_bid_nil (md0 : MarketData) (ob : OrderBook) (t : Trade)
    (now : ℕ) (h : ob.bids = []) : (umdPure md0 ob t now).bid = md0.bid := by
  rw [umdPure_eq]
  dsimp only []
  rw [h]

lemma umdPure_ask_cons (md0 : MarketData) (ob : OrderBook) (t : Trade)
    (now : ℕ) (l : Level) (tl : List Level) (h : ob.asks = l :: tl) :
    (umdPure md0 ob t now).ask = l.price := by
  rw [umdPure_eq]
  dsimp only []
  rw [h]

lemma umdPure_ask_nil (md0 : MarketData) (ob : OrderBook) (t : Trade)
    (now : ℕ) (h : ob.asks = []) : (umdPure md0 ob t now).ask = md0.ask := by
  rw [umdPure_eq]
  dsimp only []
  rw [h]

lemma umdPure_change_pos (md0 : MarketData) (ob : OrderBook) (t : Trade)
    (now : ℕ) (p : ℚ) (hp : md0.last_price = some p) (h0 : 0 < p) :
    (umdPure md0 ob t now).change_24h = ((t.price.getD 0 - p) / p) * 100 := by
  rw [umdPure_eq]
  dsimp only []
  rw [hp]
  dsimp only []
  rw [if_pos h0]

lemma umdPure_change_nonpos (md0 : MarketData) (ob : OrderBook) (t : Trade)
    (now : ℕ) (p : ℚ) (hp : md0.last_price = some p) (h0 : ¬ 0 < p) :
    (umdPure md0 ob t now).change_24h = md0.change_24h := by
  rw [umdPure_eq]
  dsimp only []
  rw [hp]
  dsimp only []
  rw [if_neg h0]

lemma umdPure_change_none (md0 : MarketData) (ob : OrderBook) (t : Trade)
    (now : ℕ) (hp : md0.last_price = none) :
    (umdPure md0 ob t now).change_24h = md0.change_24h := by
  rw [umdPure_eq]
  dsimp only []
  rw [hp]

lemma umdPure_change_fresh (md0 : MarketData) (ob : OrderBook) (t : Trade)
    (now : ℕ) (h : md0.last_price = t.price) (h0 : md0.change_24h = 0) :
    (umdPure md0 ob t now).change_24h = 0 := by
  rw [umdPure_eq]
  dsimp only []
  rw [h]
  cases hp : t.price with
  | none => exact h0
  | some p =>
    dsimp only []
    by_cases hq : 0 < p
    · rw [if_pos hq]
      simp
    · rw [if_neg hq]
      exact h0

lemma umd_spec (s4 : MatchingEngine) (sym : String) (t : Trade) (now : ℕ)
    (ob : OrderBook) (hob : lookupKey s4.order_books sym = some ob) :
    ∃ md, lookupKey (_update_market_data s4 sym t now).market_data sym =
        some md ∧
      md.last_price = t.price ∧ md.timestamp = now ∧
      (∀ l tl, ob.bids = l :: tl → md.bid = l.price) ∧
      (∀ l tl, ob.asks = l :: tl → md.ask = l.price) ∧
      (∀ md0, lookupKey s4.market_data sym = some md0 →
        (∀ p, md0.last_price = some p → 0 < p →
          md.change_24h = ((t.price.getD 0 - p) / p) * 100) ∧
        (∀ p, md0.last_price = some p → ¬ 0 < p →
          md.change_24h = md0.change_24h) ∧
        (md0.last_price = none → md.change_24h = md0.change_24h) ∧
        (ob.bids = [] → md.bid = md0.bid) ∧
        (ob.asks = [] → md.ask = md0.ask)) ∧
      (lookupKey s4.market_data sym = none →
        md.change_24h = 0 ∧
        (ob.bids = [] → md.bid = 0) ∧
        (ob.asks = [] → md.ask = 0)) := by
  unfold _update_market_data
  cases hm : lookupKey s4.market_data sym with
  | none =>
    dsimp only []
    rw [hob]
    dsimp only []
    refine ⟨_, lookupKey_setKey_self _ _ _, umdPure_last _ _ _ _,
      umdPure_timestamp _ _ _ _, ?_, ?_, ?_, ?_⟩
    · intro l tl h
      exact umdPure_bid_cons _ _ _ _ l tl h
    · intro l tl h
      exact umdPure_ask_cons _ _ _ _ l tl h
    · intro md0 h
      exact absurd h (by simp)
    · intro _
      refine ⟨?_, ?_, ?_⟩
      · exact umdPure_change_fresh _ _ _ _ rfl rfl
      · intro h
        exact umdPure_bid_nil _ _ _ _ h
      · intro h
        exact umdPure_ask_nil _ _ _ _ h
  | some md0x =>
    dsimp only []
    rw [hob]
    dsimp only []
    refine ⟨_, lookupKey_setKey_self _ _ _, umdPure_last _ _ _ _,
      umdPure_timestamp _ _ _ _, ?_, ?_, ?_, ?_⟩
    · intro l tl h
      exact umdPure_bid_cons _ _ _ _ l tl h
    · intro l tl h
      exact umdPure_ask_cons _ _ _ _ l tl h
    · intro md0 h
      injection h with h'
      subst h'
      refine ⟨?_, ?_, ?_, ?_, ?_⟩
      · intro p hp h0
        exact umdPure_change_pos _ _ _ _ p hp h0
      · intro p hp h0
        exact umdPure_change_nonpos _ _ _ _ p hp h0
      · intro hp
        exact umdPure_change_none _ _ _ _ hp
      · intro h
        exact umdPure_bid_nil _ _ _ _ h
      · intro h
        exact umdPure_ask_nil _ _ _ _ h
    · intro h
      exact absurd h (by simp)

/-- C8: counterexample to the per-trade update.  `process_order` updates
market data once per call, from the last trade of the call only; a call that
produces two trades (at 110 then 120, against a previous last price of 100)
stores change percentage (120 - 100) / 100 * 100 = 20, while updating on
every trade as claimed would leave the last step's change at
(120 - 110) / 110 * 100 = 100/11. -/
theorem c8_change_not_per_trade :
    runC5.2.1.map Trade.price = [some 110, some 120] ∧
    (get_market_data runC4.1 "Z").map MarketData.last_price =
      some (some 100) ∧
    (get_market_data runC5.1 "Z").map MarketData.change_24h = some 20 ∧
    specPerTradeChange 100 0 [110, 120] = (120, 100 / 11) ∧
    (20 : ℚ) ≠ 100 / 11 := by
  norm_num +decide [runC5, runC4, runC3, runC2, runC1, process_order,
    MatchingEngine.init, mkOrder, _validate_order, limitPriceBad, lookupKey,
    setKey, _match_buy_order, _match_sell_order, getSymbolOrders,
    SymbolOrders.empty, pendingRefs, List.mergeSort, refLeSell, refLeBuy,
    askLe, bidLe, matchBuyLoop, matchSellLoop, _price_matches, truthyPrice,
    _execute_trade, modifyRef, _update_order_after_trade, _add_to_orderbook,
    _update_orderbook_snapshot, collectLevels, addLevel, pairLeAsc,
    pairLeDesc, _update_market_data, umdPure, get_market_data,
    specPerTradeChange]

/-- C8: amended market-data property.  Market data for the incoming order's
symbol is written once per `process_order` call, from the last trade of the
call only: the stored entry's last price is that trade's price and its
timestamp the call time; best bid and ask are copied from the top of the
symbol's final book, each side keeping its previous value (0 for a fresh
entry) when empty rather than being unset; the change percentage is computed
against the previous entry's last price when that price was positive, is left
unchanged when it was non-positive or absent, and a call whose symbol had no
previous entry stores change 0. -/
theorem c8_market_data_update (s : MatchingEngine) (o : Order) (now : ℕ)
    (t : Trade) (hlast : (process_order s o now).2.1.getLast? = some t) :
    ∃ ob md,
      lookupKey (process_order s o now).1.order_books o.symbol = some ob ∧
      lookupKey (process_order s o now).1.market_data o.symbol = some md ∧
      md.last_price = t.price ∧
      md.timestamp = now ∧
      (∀ l tl, ob.bids = l :: tl → md.bid = l.price) ∧
      (∀ l tl, ob.asks = l :: tl → md.ask = l.price) ∧
      (∀ md0, lookupKey s.market_data o.symbol = some md0 →
        (∀ p, md0.last_price = some p → 0 < p →
          md.change_24h = ((t.price.getD 0 - p) / p) * 100) ∧
        (∀ p, md0.last_price = some p → ¬ 0 < p →
          md.change_24h = md0.change_24h) ∧
        (md0.last_price = none → md.change_24h = md0.change_24h) ∧
        (ob.bids = [] → md.bid = md0.bid) ∧
        (ob.asks = [] → md.ask = md0.ask)) ∧
      (lookupKey s.market_data o.symbol = none →
        md.change_24h = 0 ∧
        (ob.bids = [] → md.bid = 0) ∧
        (ob.asks = [] → md.ask = 0)) := by
  by_cases hv : _validate_order o = true
  · obtain ⟨s4, hmd, hbooks, heq⟩ := process_order_umd_decomp s o now hv
    rw [hlast] at heq
    obtain ⟨ob, hob⟩ := Option.isSome_iff_exists.mp hbooks
    obtain ⟨md, hmdl, h1, h2, h3, h4, h5, h6⟩ := umd_spec s4 o.symbol t now ob hob
    refine ⟨ob, md, ?_, ?_, h1, h2, h3, h4, ?_, ?_⟩
    · rw [heq, (umd_keeps s4 o.symbol t now).2.2.2.1]
      exact hob
    · rw [heq]
      exact hmdl
    · intro md0 h
      refine h5 md0 ?_
      rw [hmd]
      exact h
    · intro h
      refine h6 ?_
      rw [hmd]
      exact h
  · exfalso
    unfold process_order at hlast
    rw [if_pos hv] at hlast
    exact absurd hlast (by simp)

/-- C8 witness: run A, step 2 — the call's last (only) trade is `tradeA2`,
and the stored market data for "X" records its price 100 with timestamp 1. -/
theorem c8_witness :
    (process_order runA1.1 orderBuyB1 1).2.1.getLast? = some tradeA2 ∧
    ∃ ob md,
      lookupKey (process_order runA1.1 orderBuyB1 1).1.order_books "X" =
        some ob ∧
      lookupKey (process_order runA1.1 orderBuyB1 1).1.market_data "X" =
        some md ∧
      md.last_price = some 100 ∧
      md.timestamp = 1 := by
  have hl : (process_order runA1.1 orderBuyB1 1).2.1.getLast? =
      some tradeA2 := by
    norm_num +decide [runA1, orderBuyB1, tradeA2, process_order,
      MatchingEngine.init, mkOrder, _validate_order, limitPriceBad, lookupKey,
      setKey, _match_buy_order, _match_sell_order, getSymbolOrders,
      SymbolOrders.empty, pendingRefs, List.mergeSort, refLeSell, refLeBuy,
      askLe, bidLe, matchBuyLoop, matchSellLoop, _price_matches, truthyPrice,
      _execute_trade, modifyRef, _update_order_after_trade, _add_to_orderbook,
      _update_orderbook_snapshot, collectLevels, addLevel, pairLeAsc,
      pairLeDesc, _update_market_data, umdPure]
  obtain ⟨ob, md, h1, h2, h3, h4, _⟩ :=
    c8_market_data_update runA1.1 orderBuyB1 1 tradeA2 hl
  exact ⟨hl, ob, md, h1, h2, h3, h4⟩

/-! ## Claim C9: compatibility of every recorded trade -/

lemma price_matches_limits (b l : Order) (hpm : _price_matches b l = true)
    (hb : b.order_type = OrderType.Limit) (hl : l.order_type = OrderType.Limit)
    (pb ps : ℚ) (hbp : b.price = some pb) (hlp : l.price = some ps) :
    ¬ pb < ps := by
  unfold _price_matches at hpm
  rw [hb, hl, hbp, hlp] at hpm
  rw [if_neg (by decide)] at hpm
  by_cases ht : truthyPrice (some pb) = true ∧ truthyPrice (some ps) = true
  · rw [if_pos ht] at hpm
    have hge : (some pb).getD 0 ≥ (some ps).getD 0 := of_decide_eq_true hpm
    exact not_lt.mpr hge
  · rw [if_neg ht] at hpm
    exact absurd hpm (by simp)

lemma core_fields (x b : Order) (hc : core x = core b) :
    x.id = b.id ∧ x.price = b.price ∧ x.order_type = b.order_type := by
  simp only [core, Prod.mk.injEq] at hc
  exact hc

lemma mem_core_of_core (h2 h : List Order)
    (hc : ∀ i, (h2.get? i).map core = (h.get? i).map core)
    (b : Order) (hb : b ∈ h2) : ∃ x ∈ h, core x = core b := by
  obtain ⟨i, hi⟩ := List.mem_iff_get?.mp hb
  have hci := hc i
  rw [hi] at hci
  cases e : h.get? i with
  | none =>
    rw [e] at hci
    exact absurd hci (by simp)
  | some x =>
    rw [e] at hci
    refine ⟨x, List.get?_mem e, ?_⟩
    injection hci with hcx
    exact hcx.symm

lemma map_id_eq_of_core (h2 h : List Order)
    (hc : ∀ i, (h2.get? i).map core = (h.get? i).map core) :
    h2.map Order.id = h.map Order.id := by
  apply List.ext_get?
  intro i
  rw [List.get?_map, List.get?_map]
  have hci := hc i
  cases e2 : h2.get? i with
  | none =>
    rw [e2] at hci
    cases e : h.get? i with
    | none => rfl
    | some x =>
      rw [e] at hci
      exact absurd hci (by simp)
  | some x =>
    rw [e2] at hci
    cases e : h.get? i with
    | none =>
      rw [e] at hci
      exact absurd hci (by simp)
    | some y =>
      rw [e] at hci
      injection hci with hxy
      show some x.id = some y.id
      rw [(core_fields x y hxy).1]

lemma tradeOK_of_core (h h2 : List Order)
    (hc : ∀ i, (h2.get? i).map core = (h.get? i).map core)
    (t : Trade) (hok : TradeOK h t) : TradeOK h2 t := by
  intro b hb hbid l hl hlid hbt hlt pb ps hbp hlp
  obtain ⟨b', hb'mem, hb'core⟩ := mem_core_of_core h2 h hc b hb
  obtain ⟨hbid', hbp', hbt'⟩ := core_fields b' b hb'core
  obtain ⟨l', hl'mem, hl'core⟩ := mem_core_of_core h2 h hc l hl
  obtain ⟨hlid', hlp', hlt'⟩ := core_fields l' l hl'core
  exact hok b' hb'mem (hbid'.trans hbid) l' hl'mem (hlid'.trans hlid)
    (hbt'.trans hbt) (hlt'.trans hlt) pb ps (hbp'.trans hbp) (hlp'.trans hlp)

lemma tradeGood_of_core (h h2 : List Order)
    (hc : ∀ i, (h2.get? i).map core = (h.get? i).map core)
    (t : Trade) (hg : TradeGood h t) : TradeGood h2 t := by
  refine ⟨tradeOK_of_core h h2 hc t hg.1, ?_, ?_⟩
  · obtain ⟨x, hx, hxid⟩ := hg.2.1
    obtain ⟨x', hx', hxc⟩ := mem_core_of_core h h2 (fun i => (hc i).symm) x hx
    exact ⟨x', hx', ((core_fields x' x hxc).1).trans hxid⟩
  · obtain ⟨y, hy, hyid⟩ := hg.2.2
    obtain ⟨y', hy', hyc⟩ := mem_core_of_core h h2 (fun i => (hc i).symm) y hy
    exact ⟨y', hy', ((core_fields y' y hyc).1).trans hyid⟩

lemma uniqIds_append_fresh (s : MatchingEngine) (o : Order)
    (hu : UniqIds s.heap) (hfresh : submittedFresh s o) :
    UniqIds (s.heap ++ [o]) := by
  unfold UniqIds at hu ⊢
  rw [List.map_append]
  refine List.Nodup.append hu (List.nodup_singleton _) ?_
  intro a ha hb
  obtain ⟨x, hx, hxid⟩ := List.mem_map.mp ha
  have hao : a = o.id := List.mem_singleton.mp hb
  exact hfresh x hx (hxid.trans hao)

lemma tradeGood_append_fresh (s : MatchingEngine) (o : Order) (t : Trade)
    (hfresh : submittedFresh s o)
    (hlegs : (∃ x ∈ s.heap, x.id = t.buy_order_id) ∧
      (∃ x ∈ s.heap, x.id = t.sell_order_id))
    (hok : TradeOK s.heap t) : TradeGood (s.heap ++ [o]) t := by
  refine ⟨?_, ?_, ?_⟩
  · intro b hb hbid l hl hlid hbt hlt pb ps hbp hlp
    have hbmem : b ∈ s.heap := by
      rcases List.mem_append.mp hb with h' | h'
      · exact h'
      · exfalso
        have hbo : b = o := List.mem_singleton.mp h'
        obtain ⟨x, hx, hxid⟩ := hlegs.1
        exact hfresh x hx (by rw [hxid, ← hbid, hbo])
    have hlmem : l ∈ s.heap := by
      rcases List.mem_append.mp hl with h' | h'
      · exact h'
      · exfalso
        have hlo : l = o := List.mem_singleton.mp h'
        obtain ⟨x, hx, hxid⟩ := hlegs.2
        exact hfresh x hx (by rw [hxid, ← hlid, hlo])
    exact hok b hbmem hbid l hlmem hlid hbt hlt pb ps hbp hlp
  · obtain ⟨x, hx, hxid⟩ := hlegs.1
    exact ⟨x, List.mem_append.mpr (Or.inl hx), hxid⟩
  · obtain ⟨x, hx, hxid⟩ := hlegs.2
    exact ⟨x, List.mem_append.mpr (Or.inl hx), hxid⟩

lemma engineInv_core_state (s s2 : MatchingEngine)
    (hh : ∀ i, (s2.heap.get? i).map core = (s.heap.get? i).map core)
    (ht : s2.trades = s.trades) (hinv : EngineInv s) : EngineInv s2 := by
  refine ⟨?_, ?_, ?_⟩
  · unfold UniqIds
    rw [map_id_eq_of_core s2.heap s.heap hh]
    exact hinv.1
  · intro t htm
    rw [ht] at htm
    obtain ⟨⟨x, hx, hxid⟩, ⟨y, hy, hyid⟩⟩ := hinv.2.1 t htm
    constructor
    · obtain ⟨x', hx', hxc⟩ := mem_core_of_core s.heap s2.heap
        (fun i => (hh i).symm) x hx
      exact ⟨x', hx', ((core_fields x' x hxc).1).trans hxid⟩
    · obtain ⟨y', hy', hyc⟩ := mem_core_of_core s.heap s2.heap
        (fun i => (hh i).symm) y hy
      exact ⟨y', hy', ((core_fields y' y hyc).1).trans hyid⟩
  · intro t htm
    rw [ht] at htm
    exact tradeOK_of_core s.heap s2.heap hh t (hinv.2.2 t htm)

lemma matchBuyLoop_trades_good (cands : List ℕ) (h : List Order)
    (acc : List Trade) (bref now : ℕ) :
    UniqIds h → (∀ t ∈ acc, TradeGood h t) →
    ∀ t ∈ (matchBuyLoop h acc bref cands now).2,
      TradeGood (matchBuyLoop h acc bref cands now).1 t := by
  induction cands generalizing h acc with
  | nil =>
    intro _ hacc
    rw [matchBuyLoop]
    exact hacc
  | cons r rest ih =>
    intro hu hacc
    rw [matchBuyLoop]
    cases hbref : h.get? bref with
    | none => exact hacc
    | some buy_order =>
      dsimp only []
      by_cases hrem : buy_order.quantity - buy_order.filled_quantity ≤ 0
      · rw [if_pos hrem]
        exact hacc
      · rw [if_neg hrem]
        cases hr : h.get? r with
        | none => exact ih h acc hu hacc
        | some sell_order =>
          dsimp only []
          by_cases hpm : _price_matches buy_order sell_order = true
          · rw [if_pos hpm]
            cases hx : _execute_trade h bref r now with
            | none => exact ih h acc hu hacc
            | some pr =>
              obtain ⟨h2, t⟩ := pr
              have hcore : ∀ i, (h2.get? i).map core = (h.get? i).map core :=
                exec_map_core h bref r now h2 t hx
              have hu2 : UniqIds h2 := by
                unfold UniqIds
                rw [map_id_eq_of_core h2 h hcore]
                exact hu
              refine ih h2 (acc ++ [t]) hu2 ?_
              intro t' ht'
              rcases List.mem_append.mp ht' with hold | hsing
              · exact tradeGood_of_core h h2 hcore t' (hacc t' hold)
              · have hts : t' = t := List.mem_singleton.mp hsing
                rw [hts]
                obtain ⟨b0, s0, hgb, hgs, -, -, -, htb, hts2, -⟩ :=
                  exec_some_inv h bref r now h2 t hx
                rw [hbref] at hgb
                injection hgb with hgb'
                rw [hr] at hgs
                injection hgs with hgs'
                refine ⟨?_, ?_, ?_⟩
                · intro b hb hbid l hl hlid hbt hlt pb ps hbp hlp
                  obtain ⟨b', hb'mem, hb'core⟩ :=
                    mem_core_of_core h2 h hcore b hb
                  obtain ⟨hbid', hbp', hbt'⟩ := core_fields b' b hb'core
                  obtain ⟨l', hl'mem, hl'core⟩ :=
                    mem_core_of_core h2 h hcore l hl
                  obtain ⟨hlid', hlp', hlt'⟩ := core_fields l' l hl'core
                  have hbuy : b' = buy_order :=
                    List.inj_on_of_nodup_map hu hb'mem (List.get?_mem hbref)
                      (by rw [hbid', hbid, htb, ← hgb'])
                  have hsell : l' = sell_order :=
                    List.inj_on_of_nodup_map hu hl'mem (List.get?_mem hr)
                      (by rw [hlid', hlid, hts2, ← hgs'])
                  refine price_matches_limits buy_order sell_order hpm ?_ ?_
                    pb ps ?_ ?_
                  · rw [← hbuy, hbt', hbt]
                  · rw [← hsell, hlt', hlt]
                  · rw [← hbuy, hbp', hbp]
                  · rw [← hsell, hlp', hlp]
                · obtain ⟨b2, hb2mem, hb2core⟩ :=
                    mem_core_of_core h h2 (fun i => (hcore i).symm)
                      buy_order (List.get?_mem hbref)
                  refine ⟨b2, hb2mem, ?_⟩
                  rw [(core_fields b2 buy_order hb2core).1, htb, ← hgb']
                · obtain ⟨l2, hl2mem, hl2core⟩ :=
                    mem_core_of_core h h2 (fun i => (hcore i).symm)
                      sell_order (List.get?_mem hr)
                  refine ⟨l2, hl2mem, ?_⟩
                  rw [(core_fields l2 sell_order hl2core).1, hts2, ← hgs']
          · rw [if_neg hpm]
            exact ih h acc hu hacc

lemma matchSellLoop_trades_good (cands : List ℕ) (h : List Order)
    (acc : List Trade) (sref now : ℕ) :
    UniqIds h → (∀ t ∈ acc, TradeGood h t) →
    ∀ t ∈ (matchSellLoop h acc sref cands now).2,
      TradeGood (matchSellLoop h acc sref cands now).1 t := by
  induction cands generalizing h acc with
  | nil =>
    intro _ hacc
    rw [matchSellLoop]
    exact hacc
  | cons r rest ih =>
    intro hu hacc
    rw [matchSellLoop]
    cases hsref : h.get? sref with
    | none => exact hacc
    | some sell_order =>
      dsimp only []
      by_cases hrem : sell_order.quantity - sell_order.filled_quantity ≤ 0
      · rw [if_pos hrem]
        exact hacc
      · rw [if_neg hrem]
        cases hr : h.get? r with
        | none => exact ih h acc hu hacc
        | some buy_order =>
          dsimp only []
          by_cases hpm : _price_matches buy_order sell_order = true
          · rw [if_pos hpm]
            cases hx : _execute_trade h r sref now with
            | none => exact ih h acc hu hacc
            | some pr =>
              obtain ⟨h2, t⟩ := pr
              have hcore : ∀ i, (h2.get? i).map core = (h.get? i).map core :=
                exec_map_core h r sref now h2 t hx
              have hu2 : UniqIds h2 := by
                unfold UniqIds
                rw [map_id_eq_of_core h2 h hcore]
                exact hu
              refine ih h2 (acc ++ [t]) hu2 ?_
              intro t' ht'
              rcases List.mem_append.mp ht' with hold | hsing
              · exact tradeGood_of_core h h2 hcore t' (hacc t' hold)
              · have hts : t' = t := List.mem_singleton.mp hsing
                rw [hts]
                obtain ⟨b0, s0, hgb, hgs, -, -, -, htb, hts2, -⟩ :=
                  exec_some_inv h r sref now h2 t hx
                rw [hr] at hgb
                injection hgb with hgb'
                rw [hsref] at hgs
                injection hgs with hgs'
                refine ⟨?_, ?_, ?_⟩
                · intro b hb hbid l hl hlid hbt hlt pb ps hbp hlp
                  obtain ⟨b', hb'mem, hb'core⟩ :=
                    mem_core_of_core h2 h hcore b hb
                  obtain ⟨hbid', hbp', hbt'⟩ := core_fields b' b hb'core
                  obtain ⟨l', hl'mem, hl'core⟩ :=
                    mem_core_of_core h2 h hcore l hl
                  obtain ⟨hlid', hlp', hlt'⟩ := core_fields l' l hl'core
                  have hbuy : b' = buy_order :=
                    List.inj_on_of_nodup_map hu hb'mem (List.get?_mem hr)
                      (by rw [hbid', hbid, htb, ← hgb'])
                  have hsell : l' = sell_order :=
                    List.inj_on_of_nodup_map hu hl'mem (List.get?_mem hsref)
                      (by rw [hlid', hlid, hts2, ← hgs'])
                  refine price_matches_limits buy_order sell_order hpm ?_ ?_
                    pb ps ?_ ?_
                  · rw [← hbuy, hbt', hbt]
                  · rw [← hsell, hlt', hlt]
                  · rw [← hbuy, hbp', hbp]
                  · rw [← hsell, hlp', hlp]
                · obtain ⟨b2, hb2mem, hb2core⟩ :=
                    mem_core_of_core h h2 (fun i => (hcore i).symm)
                      buy_order (List.get?_mem hr)
                  refine ⟨b2, hb2mem, ?_⟩
                  rw [(core_fields b2 buy_order hb2core).1, htb, ← hgb']
                · obtain ⟨l2, hl2mem, hl2core⟩ :=
                    mem_core_of_core h h2 (fun i => (hcore i).symm)
                      sell_order (List.get?_mem hsref)
                  refine ⟨l2, hl2mem, ?_⟩
                  rw [(core_fields l2 sell_order hl2core).1, hts2, ← hgs']
          · rw [if_neg hpm]
            exact ih h acc hu hacc

lemma reachable_engineInv (s : MatchingEngine) (hs : Reachable s) :
    EngineInv s := by
  induction hs with
  | init =>
    refine ⟨List.nodup_nil, ?_, ?_⟩
    · intro t htm
      exact absurd htm (by simp [MatchingEngine.init])
    · intro t htm
      exact absurd htm (by simp [MatchingEngine.init])
  | step s o now hreach hfresh ih =>
    by_cases hv : _validate_order o = true
    · obtain ⟨cands, mt, hcand, hcnone, hmt, hheap, htrades, htr2, hactive⟩ :=
        process_order_valid_decomp s o now hv
      have hu0 : UniqIds (s.heap ++ [o]) := uniqIds_append_fresh s o ih.1 hfresh
      have hgood0 : ∀ t ∈ s.trades, TradeGood (s.heap ++ [o]) t := by
        intro t htm
        exact tradeGood_append_fresh s o t hfresh (ih.2.1 t htm)
          (ih.2.2 t htm)
      cases hside : o.side with
      | Buy =>
        rw [hside] at hmt
        subst hmt
        have hcore : ∀ i,
            ((matchBuyLoop (s.heap ++ [o]) [] s.heap.length cands
              now).1.get? i).map core = ((s.heap ++ [o]).get? i).map core :=
          fun i => matchBuyLoop_map_core cands (s.heap ++ [o]) []
            s.heap.length now i
        have hnew := matchBuyLoop_trades_good cands (s.heap ++ [o]) []
          s.heap.length now hu0 (by intro t' ht'; exact absurd ht' (by simp))
        refine ⟨?_, ?_, ?_⟩
        · rw [hheap]
          unfold UniqIds
          rw [map_id_eq_of_core _ _ hcore]
          exact hu0
        · intro t htm
          rw [htrades] at htm
          rw [hheap]
          rcases List.mem_append.mp htm with hold | hnw
          · have hg := tradeGood_of_core (s.heap ++ [o]) _ hcore t
              (hgood0 t hold)
            exact ⟨hg.2.1, hg.2.2⟩
          · exact ⟨(hnew t hnw).2.1, (hnew t hnw).2.2⟩
        · intro t htm
          rw [htrades] at htm
          rw [hheap]
          rcases List.mem_append.mp htm with hold | hnw
          · exact (tradeGood_of_core (s.heap ++ [o]) _ hcore t
              (hgood0 t hold)).1
          · exact (hnew t hnw).1
      | Sell =>
        rw [hside] at hmt
        subst hmt
        have hcore : ∀ i,
            ((matchSellLoop (s.heap ++ [o]) [] s.heap.length cands
              now).1.get? i).map core = ((s.heap ++ [o]).get? i).map core :=
          fun i => matchSellLoop_map_core cands (s.heap ++ [o]) []
            s.heap.length now i
        have hnew := matchSellLoop_trades_good cands (s.heap ++ [o]) []
          s.heap.length now hu0 (by intro t' ht'; exact absurd ht' (by simp))
        refine ⟨?_, ?_, ?_⟩
        · rw [hheap]
          unfold UniqIds
          rw [map_id_eq_of_core _ _ hcore]
          exact hu0
        · intro t htm
          rw [htrades] at htm
          rw [hheap]
          rcases List.mem_append.mp htm with hold | hnw
          · have hg := tradeGood_of_core (s.heap ++ [o]) _ hcore t
              (hgood0 t hold)
            exact ⟨hg.2.1, hg.2.2⟩
          · exact ⟨(hnew t hnw).2.1, (hnew t hnw).2.2⟩
        · intro t htm
          rw [htrades] at htm
          rw [hheap]
          rcases List.mem_append.mp htm with hold | hnw
          · exact (tradeGood_of_core (s.heap ++ [o]) _ hcore t
              (hgood0 t hold)).1
          · exact (hnew t hnw).1
    · have heq : (process_order s o now).1 = s := by
        unfold process_order
        rw [if_pos hv]
      rw [heq]
      exact ih
  | cancel s oid uid now hreach ih =>
    unfold cancel_order
    cases e : lookupKey s.active_orders oid with
    | none => exact ih
    | some r =>
      dsimp only []
      cases hg : s.heap.get? r with
      | none => exact ih
      | some o =>
        dsimp only []
        by_cases h1 : o.user_id ≠ uid
        · rw [if_pos h1]
          exact ih
        · rw [if_neg h1]
          by_cases h2 : ¬ (o.status = OrderStatus.Pending ∨
              o.status = OrderStatus.Partial)
          · rw [if_pos h2]
            exact ih
          · rw [if_neg h2]
            dsimp only []
            refine engineInv_core_state s _ ?_ ?_ ih
            · intro i
              rw [(remove_keeps _ _ _).1]
              exact modifyRef_map_core s.heap r
                (fun x => { x with
                            status := OrderStatus.Cancelled,
                            updated_at := now })
                (fun x => rfl) i
            · exact (remove_keeps _ _ _).2.2.1

/-- C9: in every engine state reachable through order submissions with fresh
ids and cancellations, no recorded trade crosses the book: whenever both legs
of a recorded trade are stored limit orders, the buy leg's limit price is not
strictly below the sell leg's limit price. -/
theorem c9_no_self_crossing (s : MatchingEngine) (hs : Reachable s) :
    ∀ t ∈ s.trades, ∀ b ∈ s.heap, b.id = t.buy_order_id →
      ∀ l ∈ s.heap, l.id = t.sell_order_id →
      b.order_type = OrderType.Limit → l.order_type = OrderType.Limit →
      ∀ pb ps, b.price = some pb → l.price = some ps → ¬ pb < ps := by
  intro t htm
  exact (reachable_engineInv s hs).2.2 t htm

/-- C9 witness: the state after run A's first two submissions is reachable,
and no trade recorded there crosses the book. -/
theorem c9_witness :
    Reachable runA2.1 ∧
    (∀ t ∈ runA2.1.trades, ∀ b ∈ runA2.1.heap, b.id = t.buy_order_id →
      ∀ l ∈ runA2.1.heap, l.id = t.sell_order_id →
      b.order_type = OrderType.Limit → l.order_type = OrderType.Limit →
      ∀ pb ps, b.price = some pb → l.price = some ps → ¬ pb < ps) := by
  have h0 : submittedFresh MatchingEngine.init
      (mkOrder "S1" "X" OrderSide.Sell OrderType.Limit 10 (some 100) 0
        "u1") := by
    intro x hx
    exact absurd hx (by simp [MatchingEngine.init])
  have h1 : Reachable runA1.1 :=
    Reachable.step MatchingEngine.init _ 0 Reachable.init h0
  have hf1 : submittedFresh runA1.1
      (mkOrder "B1" "X" OrderSide.Buy OrderType.Limit 4 (some 100) 1
        "u2") := by
    norm_num +decide [submittedFresh, runA1, process_order,
      MatchingEngine.init, mkOrder, _validate_order, limitPriceBad, lookupKey,
      setKey, _match_buy_order, _match_sell_order, getSymbolOrders,
      SymbolOrders.empty, pendingRefs, List.mergeSort, refLeSell, refLeBuy,
      askLe, bidLe, matchBuyLoop, matchSellLoop, _price_matches, truthyPrice,
      _execute_trade, modifyRef, _update_order_after_trade, _add_to_orderbook,
      _update_orderbook_snapshot, collectLevels, addLevel, pairLeAsc,
      pairLeDesc, _update_market_data, umdPure]
  have h2 : Reachable runA2.1 :=
    Reachable.step runA1.1 _ 1 h1 hf1
  exact ⟨h2, c9_no_self_crossing runA2.1 h2⟩

end OrderMatch
